import Mathlib

/-!
Verification of the string-extraction core of the `laravel-i18n-refactor`
repository.  Python source files are shallowly embedded: text is `List Char`
(Unicode code points), machine integers are `Nat`/`Int`, the `-1` sentinel of
`str.find` style helpers is `Option Nat`, and every scanning `while` loop is
embedded as a fuel-indexed recursion (one fuel unit per loop iteration) whose
sufficiency at fuel `length + 1` is proved, mirroring the source invariant
that every iteration strictly advances the cursor.
-/

set_option maxRecDepth 16384

namespace LaravelI18n

/-- Code points treated as whitespace by Python's `str.strip` / `str.isspace`. -/
def isPySpace (c : Char) : Bool :=
  c.toNat = 0x20 || (0x9 ≤ c.toNat && c.toNat ≤ 0xd) ||
  (0x1c ≤ c.toNat && c.toNat ≤ 0x1f) || c.toNat = 0x85 || c.toNat = 0xa0 ||
  c.toNat = 0x1680 || (0x2000 ≤ c.toNat && c.toNat ≤ 0x200a) ||
  c.toNat = 0x2028 || c.toNat = 0x2029 || c.toNat = 0x202f ||
  c.toNat = 0x205f || c.toNat = 0x3000

/-- Python `str.lstrip()`. -/
def pyLStrip (s : List Char) : List Char := s.dropWhile isPySpace

/-- Python `str.rstrip()`. -/
def pyRStrip (s : List Char) : List Char := (s.reverse.dropWhile isPySpace).reverse

/-- Python `str.strip()`. -/
def pyStrip (s : List Char) : List Char := pyRStrip (pyLStrip s)

/-- Python `str.isspace()`: nonempty and all whitespace. -/
def pyIsSpace (s : List Char) : Bool := !s.isEmpty && s.all isPySpace

/-- UTF-8 byte length of a text, Python `len(s.encode("utf-8"))`. -/
def utf8Len (s : List Char) : Nat := (s.map Char.utf8Size).sum

/-- Python `s.split("\n")`: always returns at least one (possibly empty) segment. -/
def splitNL : List Char → List (List Char)
  | [] => [[]]
  | c :: rest =>
    if c = '\n' then [] :: splitNL rest
    else
      match splitNL rest with
      | [] => [[c]]
      | l :: ls => (c :: l) :: ls

/-- `StringProcessor.get_line_column` (string_processor.py:143): split the prefix
before `pos` on newlines; line is the 1-based segment count, column the length
of the last segment. -/
def get_line_column (content : List Char) (pos : Nat) : Nat × Nat :=
  let linesBefore := splitNL (content.take pos)
  (linesBefore.length, (linesBefore.getLastD []).length)

/-- `StringProcessor.get_position_from_line_column` (string_processor.py:160):
returns `-1` when the line is out of range or the computed position reaches
the content length. -/
def get_position_from_line_column (content : List Char) (line col : Nat) : Int :=
  let lines := splitNL content
  if line < 1 || lines.length < line then -1
  else
    let pos := ((lines.take (line - 1)).map (fun l => l.length + 1)).sum + col
    if content.length ≤ pos then -1 else (pos : Int)

/-- `StringProcessor.contains_non_ascii` (string_processor.py:29). -/
def contains_non_ascii (s : List Char) : Bool := s.any (fun c => 127 < c.toNat)

/-- Characters allowed after a backslash by the escape-only regex
`^(\\[ntrfvabe\\"'])+$` of `should_extract_string` (string_processor.py:78). -/
def escChar (c : Char) : Bool :=
  c = 'n' || c = 't' || c = 'r' || c = 'f' || c = 'v' || c = 'a' || c = 'b' ||
  c = 'e' || c = '\\' || c = '"' || c = '\''

/-- Zero or more backslash-escape pairs drawn from `escChar`. -/
def escapePairs : List Char → Bool
  | [] => true
  | '\\' :: c :: rest => escChar c && escapePairs rest
  | _ => false

/-- The full-match semantics of `re.match(r'^(\\[ntrfvabe\\"\'])+$', s)`:
one or more escape pairs (the argument is already stripped, so the `$`
newline subtlety cannot arise). -/
def escapeOnly (s : List Char) : Bool := !s.isEmpty && escapePairs s

/-- The regex-metacharacter openers rejected by `should_extract_string`
(string_processor.py:91). -/
def regexStarts : List (List Char) :=
  [['(', '?', ':'], ['(', '?', '='], ['(', '?', '!'], ['(', '?', '<'],
   ['\\', 'd'], ['\\', 'w'], ['\\', 's'], ['\\', 'b'], ['^', '['], ['^', '\\']]

/-- The deny-list of characters that cannot begin an extracted sentence
(string_processor.py:110). -/
def invalidStartChars : List Char :=
  ['#', ',', '/', '$', '.', '!', ':', ';', ')', ']', '\x7d', '%', '&', '@',
   '?', '^', '~', '\x60']

/-- One step of the character filter of `should_extract_string`
(string_processor.py:115-134): drop ASCII digits, ASCII whitespace and ASCII
symbols; keep ASCII letters and every non-ASCII character. -/
def keepChar (c : Char) : Bool :=
  let n := c.toNat
  if 48 ≤ n && n ≤ 57 then false
  else if c = ' ' || c = '\t' || c = '\r' || c = '\n' then false
  else if n < 128 then (65 ≤ n && n ≤ 90) || (97 ≤ n && n ≤ 122)
  else true

/-- `StringProcessor.should_extract_string` (string_processor.py:42-141). -/
def should_extract_string (text : List Char) (minBytes : Nat) : Bool :=
  if (pyStrip text).isEmpty then false
  else
    let checkText := pyStrip text
    if escapeOnly checkText then false
    else
      let hasNonAscii := contains_non_ascii checkText
      if !hasNonAscii && utf8Len checkText < minBytes then false
      else if regexStarts.any (fun p => p.isPrefixOf checkText) then false
      else if invalidStartChars.contains (checkText.headD ' ') then false
      else if (checkText.filter keepChar).isEmpty then false
      else true

/-- `StringProcessor.adjust_text_position` (string_processor.py:186). -/
def adjust_text_position (text : List Char) (column : Nat) :
    List Char × Nat × Nat :=
  let stripped := pyStrip text
  let leading := text.length - (pyLStrip text).length
  (stripped, column + leading, stripped.length)

example : should_extract_string "Hi".toList 4 = false := by decide
example : should_extract_string "こ".toList 4 = true := by decide
example : should_extract_string "\\x".toList 2 = true := by decide
example : should_extract_string "\\n\\t".toList 0 = false := by decide
example : get_line_column "ab\ncd".toList 4 = (2, 1) := by decide
example : get_position_from_line_column "ab\ncd".toList 2 1 = 4 := by decide
example : get_position_from_line_column "a".toList 1 1 = -1 := by decide

/-! Basic facts about `splitNL`, feeding the position round-trip proof. -/

theorem splitNL_ne_nil (s : List Char) : splitNL s ≠ [] := by
  cases s with
  | nil => simp [splitNL]
  | cons c rest =>
    simp only [splitNL]
    split
    · simp
    · split <;> simp

theorem splitNL_newline (s : List Char) : splitNL ('\n' :: s) = [] :: splitNL s := by
  simp [splitNL]

theorem splitNL_cons_of_ne {c : Char} (hc : c ≠ '\n') {s : List Char}
    {hd : List Char} {tl : List (List Char)} (h : splitNL s = hd :: tl) :
    splitNL (c :: s) = (c :: hd) :: tl := by
  simp only [splitNL, if_neg hc, h]

theorem splitNL_length (s : List Char) :
    (splitNL s).length = s.count '\n' + 1 := by
  induction s with
  | nil => simp [splitNL]
  | cons c rest ih =>
    by_cases hc : c = '\n'
    · subst hc
      simp [splitNL_newline, ih, List.count_cons]
    · cases h : splitNL rest with
      | nil => exact absurd h (splitNL_ne_nil rest)
      | cons hd tl =>
        rw [splitNL_cons_of_ne hc h]
        have := ih
        rw [h] at this
        simp only [List.length_cons] at this ⊢
        rw [List.count_cons]
        simp [hc, this]

theorem getLastD_of_ne_nil {α : Type} {l : List α} (h : l ≠ []) (a b : α) :
    l.getLastD a = l.getLastD b := by
  cases l with
  | nil => exact absurd rfl h
  | cons x xs =>
    cases xs with
    | nil => simp
    | cons y ys => simp only [List.getLastD_cons]

/-- Core arithmetic of the position round trip: for any offset `o ≤ |t|`, the
sum of the full lengths (plus one newline each) of the lines strictly before
the line of `o`, plus the column of `o`, equals `o`. -/
theorem roundtrip_sum (t : List Char) : ∀ (o : Nat), o ≤ t.length →
    (((splitNL t).take ((splitNL (t.take o)).length - 1)).map
      (fun l => l.length + 1)).sum + ((splitNL (t.take o)).getLastD []).length = o := by
  induction t with
  | nil =>
    intro o ho
    have : o = 0 := Nat.le_zero.mp ho
    subst this
    simp [splitNL]
  | cons c t ih =>
    intro o ho
    cases o with
    | zero => simp [splitNL]
    | succ o =>
      have ho' : o ≤ t.length := by simpa using ho
      rw [List.take_succ_cons]
      by_cases hc : c = '\n'
      · subst hc
        rw [splitNL_newline, splitNL_newline]
        cases h1 : splitNL (t.take o) with
        | nil => exact absurd h1 (splitNL_ne_nil _)
        | cons hd1 tl1 =>
          have hIH := ih o ho'
          rw [h1] at hIH
          simp only [List.length_cons, Nat.add_sub_cancel, List.take_succ_cons,
            List.map_cons, List.sum_cons, List.getLastD_cons] at hIH ⊢
          simp only [List.length_nil, Nat.zero_add]
          omega
      · cases h1 : splitNL (t.take o) with
        | nil => exact absurd h1 (splitNL_ne_nil _)
        | cons hd1 tl1 =>
          cases h2 : splitNL t with
          | nil => exact absurd h2 (splitNL_ne_nil _)
          | cons hd2 tl2 =>
            rw [splitNL_cons_of_ne hc h1, splitNL_cons_of_ne hc h2]
            have hIH := ih o ho'
            rw [h1, h2] at hIH
            cases tl1 with
            | nil =>
              simp only [List.length_cons, List.length_nil, Nat.zero_add,
                Nat.sub_self, List.take_zero, List.map_nil, List.sum_nil,
                List.getLastD_cons, List.getLastD_nil] at hIH ⊢
              omega
            | cons x xs =>
              simp only [List.length_cons, Nat.add_sub_cancel,
                List.take_succ_cons, List.map_cons, List.sum_cons,
                List.getLastD_cons] at hIH ⊢
              omega

theorem splitNL_take_length_le (t : List Char) (o : Nat) :
    (splitNL (t.take o)).length ≤ (splitNL t).length := by
  rw [splitNL_length, splitNL_length]
  have : (t.take o).count '\n' ≤ t.count '\n' :=
    (List.take_sublist o t).count_le '\n'
  omega

/-- Claim C2 as stated is false at the boundary offset: for the one-character
text `"a"` and offset `1 = length`, `get_line_column` yields `(1, 1)` but the
reverse conversion returns the invalid sentinel `-1`, not `1`. -/
theorem C2_position_roundtrip_counterexample :
    get_line_column ['a'] 1 = (1, 1) ∧ (1 : Nat) ≤ [('a' : Char)].length ∧
    get_position_from_line_column ['a'] 1 1 = -1 ∧ ((-1 : Int) ≠ (1 : Int)) := by
  decide

/-- Claim C2 amended: `get_position_from_line_column` inverts
`get_line_column` exactly for every offset strictly below the text length;
at offset equal to the text length the reverse conversion returns `-1`
(the code treats `pos >= len(content)` as invalid); offset `0` always maps
to position `(1, 0)`. -/
theorem C2_position_roundtrip :
    (∀ (t : List Char) (o : Nat), o < t.length →
      get_position_from_line_column t (get_line_column t o).1
        (get_line_column t o).2 = (o : Int))
    ∧ (∀ t : List Char, get_line_column t 0 = (1, 0))
    ∧ (∀ t : List Char,
      get_position_from_line_column t (get_line_column t t.length).1
        (get_line_column t t.length).2 = -1) := by
  have key : ∀ (t : List Char) (o : Nat), o ≤ t.length →
      get_position_from_line_column t (get_line_column t o).1
        (get_line_column t o).2 =
      (if t.length ≤ o then (-1 : Int) else (o : Int)) := by
    intro t o ho
    have hsum := roundtrip_sum t o ho
    have hle := splitNL_take_length_le t o
    have hpos : 1 ≤ (splitNL (t.take o)).length := by
      have := splitNL_ne_nil (t.take o)
      cases h : splitNL (t.take o) with
      | nil => exact absurd h this
      | cons a l => simp [h]
    simp only [get_line_column, get_position_from_line_column]
    rw [if_neg]
    · rw [hsum]
    · simp only [Bool.or_eq_true, decide_eq_true_eq, not_or, not_lt]
      omega
  refine ⟨?_, ?_, ?_⟩
  · intro t o ho
    rw [key t o (Nat.le_of_lt ho), if_neg (by omega)]
  · intro t
    simp [get_line_column, splitNL]
  · intro t
    rw [key t t.length (Nat.le_refl _), if_pos (Nat.le_refl _)]

/-- Witness for `C2_position_roundtrip` at text `"ab\ncd"`, offset `4`. -/
theorem C2_position_roundtrip_witness :
    (4 < ("ab\ncd".toList).length) ∧
    get_position_from_line_column "ab\ncd".toList
      (get_line_column "ab\ncd".toList 4).1
      (get_line_column "ab\ncd".toList 4).2 = (4 : Int) :=
  ⟨by decide, C2_position_roundtrip.1 "ab\ncd".toList 4 (by decide)⟩

/-- Claim C1: `should_extract_string` rejects any string whose trimmed text is
ASCII-only with UTF-8 byte length below the minimum; when the trimmed text
contains a non-ASCII character the result is independent of the minimum (the
byte-length rule never rejects); with minimum 4 the ASCII `"Hi"` is rejected
while the 3-byte `"こ"` is extracted. -/
theorem C1_min_bytes_exemption :
    (∀ (s : List Char) (m : Nat), contains_non_ascii (pyStrip s) = false →
      utf8Len (pyStrip s) < m → should_extract_string s m = false)
    ∧ (∀ (s : List Char) (m₁ m₂ : Nat), contains_non_ascii (pyStrip s) = true →
      should_extract_string s m₁ = should_extract_string s m₂)
    ∧ should_extract_string "Hi".toList 4 = false
    ∧ should_extract_string "こ".toList 4 = true := by
  refine ⟨?_, ?_, by decide, by decide⟩
  · intro s m h1 h2
    simp only [should_extract_string]
    split
    · rfl
    · split
      · rfl
      · rw [if_pos]
        simp [h1, h2]
  · intro s m₁ m₂ h
    simp only [should_extract_string, h]
    rfl

/-- Witness for `C1_min_bytes_exemption`: both hypothesis-bearing conjuncts
applied at concrete inputs. -/
theorem C1_min_bytes_exemption_witness :
    (contains_non_ascii (pyStrip "Hi".toList) = false ∧
      utf8Len (pyStrip "Hi".toList) < 4 ∧
      should_extract_string "Hi".toList 4 = false) ∧
    (contains_non_ascii (pyStrip "こ".toList) = true ∧
      should_extract_string "こ".toList 4 = should_extract_string "こ".toList 99) :=
  ⟨⟨by decide, by decide, C1_min_bytes_exemption.1 "Hi".toList 4 (by decide) (by decide)⟩,
   ⟨by decide, C1_min_bytes_exemption.2.1 "こ".toList 4 99 (by decide)⟩⟩

/-- Shape asserted by claim C8, formalized from the claim's wording: the text
consists solely of one or more pairs of a backslash followed by any single
character.  The source's regex restricts the escaped character instead. -/
def backslashAnyPairs : List Char → Bool
  | [] => true
  | '\\' :: _ :: rest => backslashAnyPairs rest
  | _ => false

/-- Nonempty and made of backslash-any-character pairs (claim C8's wording). -/
def backslashAnyShape (s : List Char) : Bool := !s.isEmpty && backslashAnyPairs s

/-- Claim C8 as stated is false: `"\x"` trims to a single backslash-escape
pair, yet `should_extract_string` extracts it (with `min_bytes = 2`), because
the source's escape-only regex only covers `[ntrfvabe\"']` escapes. -/
theorem C8_escape_only_counterexample :
    backslashAnyShape (pyStrip "\\x".toList) = true ∧
    should_extract_string "\\x".toList 2 = true := by
  decide

/-- Claim C8 amended: a string whose trimmed text consists solely of one or
more backslash-escape pairs over the escape set `[ntrfvabe\"']` of the
source's regex is never extracted, for any minimum byte length. -/
theorem C8_escape_only_rejected (s : List Char) (m : Nat)
    (h : escapeOnly (pyStrip s) = true) : should_extract_string s m = false := by
  have hne : (pyStrip s).isEmpty = false := by
    cases hs : pyStrip s with
    | nil => rw [hs] at h; simp [escapeOnly] at h
    | cons a l => simp
  simp only [should_extract_string, hne, Bool.false_eq_true, if_false, h, if_true]

/-- Witness for `C8_escape_only_rejected` at `"\n\t"`, minimum 0. -/
theorem C8_escape_only_rejected_witness :
    escapeOnly (pyStrip "\\n\\t".toList) = true ∧
    should_extract_string "\\n\\t".toList 0 = false :=
  ⟨by decide, C8_escape_only_rejected "\\n\\t".toList 0 (by decide)⟩

/-!
Exclusion dictionary (`exclusion_dict.py`).  `ExclusionMatcher._matches`
translates a glob pattern into an anchored regex: every character is escaped
literally except `*` (which becomes `.*`) and a bracketed character class,
which is copied verbatim.  Lines with the `regex:` marker delegate to
Python's `re` engine (external to this embedding); the embedded matcher
covers the exact/glob/class pattern forms.
-/

/-- One token of the regex built from a glob pattern: a literal character,
`.*`, or a character class (optionally negated, items are inclusive ranges
with a single character represented as a degenerate range). -/
inductive GlobTok where
  | lit (c : Char)
  | star
  | cls (neg : Bool) (items : List (Char × Char))
deriving DecidableEq

/-- Split the tail of a `[`-class at the first `]` (exclusion_dict.py:141-147):
returns the verbatim class body and the remainder, or `none` when no closing
bracket exists (the `[` is then treated as a literal). -/
def splitAtCloseBracket : List Char → Option (List Char × List Char)
  | [] => none
  | c :: rest =>
    if c = ']' then some ([], rest)
    else (splitAtCloseBracket rest).map (fun pr => (c :: pr.1, pr.2))

/-- Items of a verbatim-copied character class body: `a-b` ranges and single
characters (a trailing or leading `-` is literal, as in the regex grammar). -/
def parseClassItems : List Char → List (Char × Char)
  | [] => []
  | a :: '-' :: b :: rest => (a, b) :: parseClassItems rest
  | a :: rest => (a, a) :: parseClassItems rest

/-- Build a class token from a verbatim class body (leading `^` negates). -/
def mkClassTok (body : List Char) : GlobTok :=
  match body with
  | '^' :: items => GlobTok.cls true (parseClassItems items)
  | items => GlobTok.cls false (parseClassItems items)

/-- Fuel-indexed tokenizer loop (each iteration consumes at least one pattern
character, so `length + 1` fuel always suffices). -/
def globToksF : Nat → List Char → List GlobTok
  | 0, _ => []
  | _, [] => []
  | fuel + 1, c :: rest =>
    if c = '*' then GlobTok.star :: globToksF fuel rest
    else if c = '[' then
      match splitAtCloseBracket rest with
      | some pr => mkClassTok pr.1 :: globToksF fuel pr.2
      | none => GlobTok.lit '[' :: globToksF fuel rest
    else GlobTok.lit c :: globToksF fuel rest

/-- The token sequence of the regex `_matches` builds from a glob pattern
(exclusion_dict.py:131-153). -/
def globToks (pattern : List Char) : List GlobTok :=
  globToksF (pattern.length + 1) pattern

/-- Character-class membership test. -/
def clsMatch (neg : Bool) (items : List (Char × Char)) (c : Char) : Bool :=
  let hit := items.any (fun pr => pr.1 ≤ c && c ≤ pr.2)
  if neg then !hit else hit

/-- Fuel-indexed matcher (every step shrinks tokens-plus-text, so
`ts.length + xs.length + 1` fuel always suffices). -/
def globCoreF : Nat → List GlobTok → List Char → Bool
  | 0, _, _ => false
  | fuel + 1, ts, xs =>
    match ts, xs with
    | [], [] => true
    | [], _ :: _ => false
    | GlobTok.lit _ :: _, [] => false
    | GlobTok.lit c :: ps, x :: tail => x = c && globCoreF fuel ps tail
    | GlobTok.cls _ _ :: _, [] => false
    | GlobTok.cls n it :: ps, x :: tail => clsMatch n it x && globCoreF fuel ps tail
    | GlobTok.star :: ps, rest =>
      globCoreF fuel ps rest ||
        (match rest with
         | [] => false
         | x :: tail => !(x = '\n') && globCoreF fuel (GlobTok.star :: ps) tail)

/-- Matching of the token sequence against a whole text (`.*` does not cross
a newline, as `.` in default mode). -/
def globCore (ts : List GlobTok) (xs : List Char) : Bool :=
  globCoreF (ts.length + xs.length + 1) ts xs

/-- Semantics of `re.match("^" ++ p ++ "$", text)`: the `$` anchor accepts
the end of the text or the position just before one trailing newline. -/
def globRegexMatch (ts : List GlobTok) (text : List Char) : Bool :=
  globCore ts text ||
    (match text.getLast? with
     | some '\n' => globCore ts text.dropLast
     | _ => false)

/-- `ExclusionMatcher._matches` (exclusion_dict.py:105-158) for the glob and
exact pattern forms. -/
def exclusionMatches (text pattern : List Char) : Bool :=
  globRegexMatch (globToks pattern) text

/-- Accumulator loop of `ExclusionMatcher.should_exclude`
(exclusion_dict.py:97-103): each pattern is `(text, is_negation)`. -/
def shouldExcludeGo (text : List Char) :
    List (List Char × Bool) → Bool → Bool
  | [], acc => acc
  | pr :: rest, acc =>
    shouldExcludeGo text rest (if exclusionMatches text pr.1 then !pr.2 else acc)

/-- `ExclusionMatcher.should_exclude` (exclusion_dict.py:84-103). -/
def should_exclude (patterns : List (List Char × Bool)) (text : List Char) : Bool :=
  shouldExcludeGo text patterns false

/-- Line handling of `ExclusionMatcher.append_from_file`
(exclusion_dict.py:59-77): strip, drop blanks and `#` comments, a leading `!`
yields a negation pattern (dropped when empty after the `!`). -/
def parseExclusionLines : List (List Char) → List (List Char × Bool)
  | [] => []
  | line :: rest =>
    let l := pyStrip line
    if l.isEmpty then parseExclusionLines rest
    else if l.headD ' ' = '#' then parseExclusionLines rest
    else if l.headD ' ' = '!' then
      let p := pyStrip l.tail
      if p.isEmpty then parseExclusionLines rest
      else (p, true) :: parseExclusionLines rest
    else (l, false) :: parseExclusionLines rest

/-- The decision procedure claim C4 describes (formalized from the claim's
wording, for comparison with the source's accumulator loop): the last
matching pattern decides, a negated one forcing inclusion; no match means
no exclusion. -/
def lastMatchWins (patterns : List (List Char × Bool)) (text : List Char) : Bool :=
  match (patterns.filter (fun pr => exclusionMatches text pr.1)).getLast? with
  | none => false
  | some pr => !pr.2

theorem getLast?_cons_eq {α : Type} (a : α) (l : List α) :
    (a :: l).getLast? = some (l.getLastD a) := by
  induction l generalizing a with
  | nil => simp
  | cons b l ih => rw [List.getLast?_cons_cons, ih, List.getLastD_cons]

theorem shouldExcludeGo_eq (text : List Char) :
    ∀ (ps : List (List Char × Bool)) (acc : Bool),
      shouldExcludeGo text ps acc =
        (match (ps.filter (fun pr => exclusionMatches text pr.1)).getLast? with
         | none => acc
         | some pr => !pr.2) := by
  intro ps
  induction ps with
  | nil => intro acc; simp [shouldExcludeGo]
  | cons hd tl ih =>
    intro acc
    by_cases h : exclusionMatches text hd.1
    · rw [shouldExcludeGo, if_pos h, ih, List.filter_cons_of_pos (by simpa using h),
        getLast?_cons_eq]
      cases hf : tl.filter (fun pr => exclusionMatches text pr.1) with
      | nil => simp
      | cons a l => rw [getLast?_cons_eq, List.getLastD_cons]
    · rw [shouldExcludeGo, if_neg h, ih, List.filter_cons_of_neg (by simpa using h)]

/-- Claim C4: `should_exclude` implements last-match-wins with negation:
it returns true exactly when the last matching pattern is non-negated,
false when no pattern matches; with the dictionary lines
`["btn-*", "!btn-important"]` the text `"btn-primary"` is excluded and
`"btn-important"` is force-included. -/
theorem C4_last_match_wins :
    (∀ (patterns : List (List Char × Bool)) (text : List Char),
      should_exclude patterns text = lastMatchWins patterns text)
    ∧ parseExclusionLines ["btn-*".toList, "!btn-important".toList] =
        [("btn-*".toList, false), ("btn-important".toList, true)]
    ∧ should_exclude
        (parseExclusionLines ["btn-*".toList, "!btn-important".toList])
        "btn-primary".toList = true
    ∧ should_exclude
        (parseExclusionLines ["btn-*".toList, "!btn-important".toList])
        "btn-important".toList = false := by
  refine ⟨?_, by decide, by decide, by decide⟩
  intro patterns text
  rw [should_exclude, lastMatchWins, shouldExcludeGo_eq]

/-!
String collector (`string_processor.py:207-293`).  The collection is the
insertion-ordered dictionary `text -> list of (absolute path, occurrences)`;
`Path.resolve()` is filesystem-dependent and is modelled as the identity on
an already-resolved absolute path string.
-/

/-- `StringOccurrence` (string_occurrence.py). -/
structure StringOccurrence where
  line : Nat
  column : Nat
  length : Nat
  context : Option (List (List Char))
deriving DecidableEq

/-- The state of `StringCollector.strings`: an insertion-ordered map from
text to the per-file occurrence lists. -/
abbrev CollectorState :=
  List (List Char × List (List Char × List StringOccurrence))

/-- The file-entry scan of `StringCollector.add_string`
(string_processor.py:241-249): append to the first entry with this path,
or add a new `(path, [occ])` entry at the end. -/
def addOccToFiles (path : List Char) (occ : StringOccurrence) :
    List (List Char × List StringOccurrence) →
      List (List Char × List StringOccurrence)
  | [] => [(path, [occ])]
  | (p, os) :: rest =>
    if p = path then (p, os ++ [occ]) :: rest
    else (p, os) :: addOccToFiles path occ rest

/-- Dictionary update of `StringCollector.add_string`
(string_processor.py:236-249): a missing text key is appended at the end
(Python dicts preserve insertion order), an existing key is updated in
place. -/
def addStringGo (text path : List Char) (occ : StringOccurrence) :
    CollectorState → CollectorState
  | [] => [(text, [(path, [occ])])]
  | (t, fs) :: rest =>
    if t = text then (t, addOccToFiles path occ fs) :: rest
    else (t, fs) :: addStringGo text path occ rest

/-- `StringCollector.add_string` (string_processor.py:219-249). -/
def add_string (st : CollectorState) (text path : List Char)
    (line column length : Nat) (context : Option (List (List Char))) :
    CollectorState :=
  addStringGo text path ⟨line, column, length, context⟩ st

/-- `StringCollector.get_results` (string_processor.py:251-281): the output
list carries, per unique text, the `(file, positions)` entries; `to_dict`
is a JSON rendering of the same fields and is embedded structurally. -/
def get_results (st : CollectorState) :
    List (List Char × List (List Char × List StringOccurrence)) :=
  st.map (fun e => (e.1, e.2.map (fun fe => (fe.1, fe.2))))

/-- `StringCollector.get_string_count` (string_processor.py:283). -/
def get_string_count (st : CollectorState) : Nat := st.length

/-- `StringCollector.get_total_occurrences` (string_processor.py:287). -/
def get_total_occurrences (st : CollectorState) : Nat :=
  (st.map (fun e => (e.2.map (fun fe => fe.2.length)).sum)).sum

/-- One recorded `add_string` call. -/
structure AddOp where
  text : List Char
  path : List Char
  line : Nat
  column : Nat
  length : Nat
  context : Option (List (List Char))
deriving DecidableEq

/-- Replay a sequence of `add_string` calls on the empty collector. -/
def runAdds (ops : List AddOp) : CollectorState :=
  ops.foldl
    (fun st op => add_string st op.text op.path op.line op.column op.length op.context)
    []

theorem addStringGo_keys (text path : List Char) (occ : StringOccurrence) :
    ∀ st : CollectorState,
      (addStringGo text path occ st).map Prod.fst =
        (if text ∈ st.map Prod.fst then st.map Prod.fst
         else st.map Prod.fst ++ [text]) := by
  intro st
  induction st with
  | nil => simp [addStringGo]
  | cons hd tl ih =>
    by_cases h : hd.1 = text
    · obtain ⟨t, fs⟩ := hd
      simp only at h
      subst h
      simp [addStringGo]
    · obtain ⟨t, fs⟩ := hd
      simp only at h
      simp only [addStringGo, if_neg h, List.map_cons, ih]
      by_cases hmem : text ∈ tl.map Prod.fst
      · simp [hmem, Ne.symm h]
      · simp [hmem, Ne.symm h]

theorem addStringGo_nodup (text path : List Char) (occ : StringOccurrence)
    (st : CollectorState) (h : (st.map Prod.fst).Nodup) :
    ((addStringGo text path occ st).map Prod.fst).Nodup := by
  rw [addStringGo_keys]
  by_cases hmem : text ∈ st.map Prod.fst
  · simpa [hmem] using h
  · rw [if_neg hmem]
    refine List.Nodup.append h (List.nodup_singleton text) ?_
    intro a ha hb
    rw [List.mem_singleton] at hb
    subst hb
    exact hmem ha

theorem runAdds_foldl_nodup :
    ∀ (ops : List AddOp) (st : CollectorState), (st.map Prod.fst).Nodup →
      ((ops.foldl (fun st op =>
        add_string st op.text op.path op.line op.column op.length op.context)
        st).map Prod.fst).Nodup := by
  intro ops
  induction ops with
  | nil => intro st h; simpa using h
  | cons op rest ih =>
    intro st h
    exact ih _ (addStringGo_nodup _ _ _ _ h)

theorem runAdds_foldl_mem (t : List Char) :
    ∀ (ops : List AddOp) (st : CollectorState),
      (t ∈ ((ops.foldl (fun st op =>
        add_string st op.text op.path op.line op.column op.length op.context)
        st).map Prod.fst)) ↔ (t ∈ st.map Prod.fst ∨ ∃ op ∈ ops, op.text = t) := by
  intro ops
  induction ops with
  | nil => intro st; simp
  | cons op rest ih =>
    intro st
    rw [List.foldl_cons, ih]
    unfold add_string
    rw [addStringGo_keys]
    by_cases hmem : op.text ∈ st.map Prod.fst
    · rw [if_pos hmem]
      constructor
      · rintro (h | ⟨o, ho, rfl⟩)
        · exact Or.inl h
        · exact Or.inr ⟨o, List.mem_cons_of_mem _ ho, rfl⟩
      · rintro (h | ⟨o, ho, rfl⟩)
        · exact Or.inl h
        · rcases List.mem_cons.mp ho with rfl | ho'
          · exact Or.inl hmem
          · exact Or.inr ⟨o, ho', rfl⟩
    · rw [if_neg hmem]
      constructor
      · rintro (h | ⟨o, ho, rfl⟩)
        · rcases List.mem_append.mp h with h' | h'
          · exact Or.inl h'
          · exact Or.inr ⟨op, List.mem_cons_self _ _, (List.mem_singleton.mp h').symm⟩
        · exact Or.inr ⟨o, List.mem_cons_of_mem _ ho, rfl⟩
      · rintro (h | ⟨o, ho, rfl⟩)
        · exact Or.inl (List.mem_append.mpr (Or.inl h))
        · rcases List.mem_cons.mp ho with rfl | ho'
          · exact Or.inl (List.mem_append.mpr (Or.inr (List.mem_singleton.mpr rfl)))
          · exact Or.inr ⟨o, ho', rfl⟩

theorem addOccToFiles_total (path : List Char) (occ : StringOccurrence) :
    ∀ fs : List (List Char × List StringOccurrence),
      ((addOccToFiles path occ fs).map (fun fe => fe.2.length)).sum =
        (fs.map (fun fe => fe.2.length)).sum + 1 := by
  intro fs
  induction fs with
  | nil => simp [addOccToFiles]
  | cons hd tl ih =>
    obtain ⟨p, os⟩ := hd
    by_cases h : p = path
    · simp only [addOccToFiles, if_pos h, List.map_cons, List.sum_cons,
        List.length_append, List.length_cons, List.length_nil]
      omega
    · simp only [addOccToFiles, if_neg h, List.map_cons, List.sum_cons, ih]
      omega

theorem addStringGo_total (text path : List Char) (occ : StringOccurrence) :
    ∀ st : CollectorState,
      get_total_occurrences (addStringGo text path occ st) =
        get_total_occurrences st + 1 := by
  intro st
  induction st with
  | nil => simp [addStringGo, get_total_occurrences]
  | cons hd tl ih =>
    obtain ⟨t, fs⟩ := hd
    by_cases h : t = text
    · simp only [addStringGo, if_pos h, get_total_occurrences, List.map_cons,
        List.sum_cons, addOccToFiles_total]
      omega
    · simp only [addStringGo, if_neg h, get_total_occurrences, List.map_cons,
        List.sum_cons] at ih ⊢
      omega

theorem runAdds_foldl_total :
    ∀ (ops : List AddOp) (st : CollectorState),
      get_total_occurrences (ops.foldl (fun st op =>
        add_string st op.text op.path op.line op.column op.length op.context) st) =
      get_total_occurrences st + ops.length := by
  intro ops
  induction ops with
  | nil => intro st; simp
  | cons op rest ih =>
    intro st
    rw [List.foldl_cons, ih]
    unfold add_string
    rw [addStringGo_total]
    simp only [List.length_cons]
    omega

/-- Claim C5: after any sequence of `add_string` calls the collector holds
exactly one entry per distinct text (the text is the deduplication key),
every added text is present, every call contributes exactly one recorded
occurrence, and the concrete `"Save"`-in-two-files scenario yields one
entry with two per-file occurrence entries. -/
theorem C5_deduplication :
    (∀ ops : List AddOp, ((runAdds ops).map Prod.fst).Nodup)
    ∧ (∀ (ops : List AddOp) (t : List Char),
      t ∈ (runAdds ops).map Prod.fst ↔ ∃ op ∈ ops, op.text = t)
    ∧ (∀ ops : List AddOp,
      get_total_occurrences (runAdds ops) = ops.length)
    ∧ runAdds
        [⟨"Save".toList, "/app/a.blade.php".toList, 1, 2, 4, none⟩,
         ⟨"Save".toList, "/app/b.blade.php".toList, 3, 0, 4, none⟩] =
      [("Save".toList,
        [("/app/a.blade.php".toList, [⟨1, 2, 4, none⟩]),
         ("/app/b.blade.php".toList, [⟨3, 0, 4, none⟩])])]
    ∧ (get_results (runAdds
        [⟨"Save".toList, "/app/a.blade.php".toList, 1, 2, 4, none⟩,
         ⟨"Save".toList, "/app/b.blade.php".toList, 3, 0, 4, none⟩])).length = 1
    ∧ ((get_results (runAdds
        [⟨"Save".toList, "/app/a.blade.php".toList, 1, 2, 4, none⟩,
         ⟨"Save".toList, "/app/b.blade.php".toList, 3, 0, 4, none⟩])).map
          (fun e => e.2.length)) = [2] := by
  refine ⟨?_, ?_, ?_, by decide, by decide, by decide⟩
  · intro ops
    simpa [runAdds] using runAdds_foldl_nodup ops [] (by simp)
  · intro ops t
    simpa [runAdds] using runAdds_foldl_mem t ops []
  · intro ops
    simpa [runAdds, get_total_occurrences] using runAdds_foldl_total ops []

/-!
PHP analyzer scanners (`php_analyzer.py`).  Every `while` loop is embedded
as a fuel-indexed recursion: one unit of fuel per iteration, `none` for fuel
exhaustion, which never occurs at fuel `content.length + 1` because every
iteration strictly advances the cursor (proved below, claim C9).
-/

/-- First index of `needle` in a list (prefix-match position), or `none`. -/
def findFrom (needle : List Char) : List Char → Option Nat
  | [] => if needle.isEmpty then some 0 else none
  | c :: rest =>
    if needle.isPrefixOf (c :: rest) then some 0
    else (findFrom needle rest).map (· + 1)

/-- Python `content.find(needle, start)`, with `none` for `-1`. -/
def pyFind (hay needle : List Char) (start : Nat) : Option Nat :=
  (findFrom needle (hay.drop start)).map (· + start)

/-- Python's Unicode `str.isalnum` restricted to its exact ASCII behaviour
(all content in the theorems below is ASCII). -/
def pyIsAlnum (c : Char) : Bool := c.isAlphanum

/-- Shared escape-aware string-skip loop (php_analyzer.py:452-462 and its
verbatim duplicates in `_find_matching_parenthesis`, `_find_matching_brace`
and blade_processor.py `_find_closing_parenthesis`): from the position after
an opening quote, return the cursor just past the closing quote, or the
content length for an unterminated string.  The guarded `getD` accesses
model Python's `content[i]` (the default is never read). -/
def skipStringF (quote : Char) (content : List Char) : Nat → Nat → Option Nat
  | 0, _ => none
  | fuel + 1, i =>
    if i < content.length then
      if content.getD i ' ' = '\\' && i + 1 < content.length then
        skipStringF quote content fuel (i + 2)
      else if content.getD i ' ' = quote then some (i + 1)
      else skipStringF quote content fuel (i + 1)
    else some i

/-- `PHPAnalyzer.find_block_end` (php_analyzer.py:396-471), fueled main loop.
The inner `Option Nat` models the `-1` / position result. -/
def findBlockEndF (content endMarker : List Char) (endMarkerLength : Nat) :
    Nat → Nat → Option (Option Nat)
  | 0, _ => none
  | fuel + 1, i =>
    if i < content.length - (endMarkerLength - 1) then
      if ['/', '*'].isPrefixOf (content.drop i) then
        match pyFind content "*/".toList (i + 2) with
        | some e => findBlockEndF content endMarker endMarkerLength fuel (e + 2)
        | none => some none
      else if ['/', '/'].isPrefixOf (content.drop i) then
        match pyFind content ['\n'] (i + 2) with
        | some e => findBlockEndF content endMarker endMarkerLength fuel (e + 1)
        | none => some none
      else if content.getD i ' ' = '#' then
        match pyFind content ['\n'] (i + 1) with
        | some e => findBlockEndF content endMarker endMarkerLength fuel (e + 1)
        | none => some none
      else if content.getD i ' ' = '"' || content.getD i ' ' = '\'' then
        match skipStringF (content.getD i ' ') content (content.length + 1) (i + 1) with
        | some j => findBlockEndF content endMarker endMarkerLength fuel j
        | none => none
      else if endMarker.isPrefixOf (content.drop i) then
        some (some i)
      else findBlockEndF content endMarker endMarkerLength fuel (i + 1)
    else some none

/-- `PHPAnalyzer.find_block_end` at always-sufficient fuel. -/
def find_block_end (content : List Char) (startPos : Nat)
    (endMarker : List Char) (endMarkerLength : Nat) : Option Nat :=
  (findBlockEndF content endMarker endMarkerLength (content.length + 1) startPos).getD none

/-- String-body collection loop of `extract_string_literals`
(php_analyzer.py:608-629): cursor after the literal plus the collected
characters, `none` in the second component for an unterminated string. -/
def extractStringBodyF (quote : Char) (content : List Char) :
    Nat → Nat → Option (Nat × Option (List Char))
  | 0, _ => none
  | fuel + 1, i =>
    if i < content.length then
      if content.getD i ' ' = '\\' && i + 1 < content.length then
        match extractStringBodyF quote content fuel (i + 2) with
        | some (j, some chars) =>
          some (j, some (content.getD i ' ' :: content.getD (i + 1) ' ' :: chars))
        | some (j, none) => some (j, none)
        | none => none
      else if content.getD i ' ' = quote then some (i + 1, some [])
      else
        match extractStringBodyF quote content fuel (i + 1) with
        | some (j, some chars) => some (j, some (content.getD i ' ' :: chars))
        | some (j, none) => some (j, none)
        | none => none
    else some (i, none)

/-- `PHPAnalyzer.extract_string_literals` (php_analyzer.py:558-633), fueled
main loop, emitting `(text, line, column, length)` in scan order. -/
def extractStringLiteralsF (content : List Char) :
    Nat → Nat → Option (List (List Char × Nat × Nat × Nat))
  | 0, _ => none
  | fuel + 1, i =>
    if i < content.length then
      if ['/', '*'].isPrefixOf (content.drop i) then
        match pyFind content "*/".toList (i + 2) with
        | some e => extractStringLiteralsF content fuel (e + 2)
        | none => some []
      else if ['/', '/'].isPrefixOf (content.drop i) then
        match pyFind content ['\n'] (i + 2) with
        | some e => extractStringLiteralsF content fuel (e + 1)
        | none => some []
      else if content.getD i ' ' = '#' then
        match pyFind content ['\n'] (i + 1) with
        | some e => extractStringLiteralsF content fuel (e + 1)
        | none => some []
      else if content.getD i ' ' = '"' || content.getD i ' ' = '\'' then
        match extractStringBodyF (content.getD i ' ') content (content.length + 1) (i + 1) with
        | some (j, some chars) =>
          if !chars.isEmpty && !pyIsSpace chars then
            match extractStringLiteralsF content fuel j with
            | some rest =>
              some ((chars, (get_line_column content (i + 1)).1,
                (get_line_column content (i + 1)).2, chars.length) :: rest)
            | none => none
          else extractStringLiteralsF content fuel j
        | some (j, none) => extractStringLiteralsF content fuel j
        | none => none
      else extractStringLiteralsF content fuel (i + 1)
    else some []

/-- `PHPAnalyzer.extract_string_literals` at always-sufficient fuel. -/
def extract_string_literals (content : List Char) :
    List (List Char × Nat × Nat × Nat) :=
  (extractStringLiteralsF content (content.length + 1) 0).getD []

/-- The `<?php ... ?>` scan loop of `extract_php_ranges`
(php_analyzer.py:497-512). -/
def phpScanF (content : List Char) : Nat → Nat → Option (List (Nat × Nat))
  | 0, _ => none
  | fuel + 1, pos =>
    match pyFind content "<?php".toList pos with
    | none => some []
    | some i =>
      match find_block_end content (i + 5) "?>".toList 2 with
      | none => some [(i, content.length)]
      | some e =>
        match phpScanF content fuel (e + 2) with
        | some rest => some ((i, e + 2) :: rest)
        | none => none

/-- The `@php ... @endphp` scan loop of `extract_php_ranges`
(php_analyzer.py:515-540), with the word-boundary checks on both tokens. -/
def bladeScanF (content : List Char) : Nat → Nat → Option (List (Nat × Nat))
  | 0, _ => none
  | fuel + 1, pos =>
    match pyFind content "@php".toList pos with
    | none => some []
    | some i =>
      if 0 < i && pyIsAlnum (content.getD (i - 1) ' ') then
        bladeScanF content fuel (i + 4)
      else
        match find_block_end content (i + 4) "@endphp".toList 7 with
        | none => some [(i, content.length)]
        | some e =>
          if e + 7 < content.length && pyIsAlnum (content.getD (e + 7) ' ') then
            bladeScanF content fuel (e + 1)
          else
            match bladeScanF content fuel (e + 7) with
            | some rest => some ((i, e + 7) :: rest)
            | none => none

/-- Ascending lexicographic order on ranges, as Python `list.sort()` on
tuples. -/
def lexLe (a b : Nat × Nat) : Bool :=
  a.1 < b.1 || (a.1 = b.1 && a.2 ≤ b.2)

/-- Insertion step of the stable sort. -/
def insertRange (x : Nat × Nat) : List (Nat × Nat) → List (Nat × Nat)
  | [] => [x]
  | y :: rest => if lexLe x y then x :: y :: rest else y :: insertRange x rest

/-- Stable insertion sort modelling `ranges.sort()`. -/
def sortRanges : List (Nat × Nat) → List (Nat × Nat)
  | [] => []
  | x :: rest => insertRange x (sortRanges rest)

/-- Merge loop of `extract_php_ranges` (php_analyzer.py:544-552): `cur` is
`merged[-1]`; a range starting at or before `cur`'s end is coalesced with
the maximum end, otherwise `cur` is emitted. -/
def mergeGo (cur : Nat × Nat) : List (Nat × Nat) → List (Nat × Nat)
  | [] => [cur]
  | r :: rest =>
    if r.1 ≤ cur.2 then mergeGo (cur.1, max cur.2 r.2) rest
    else cur :: mergeGo r rest

/-- Sort-then-merge normalization of `extract_php_ranges`. -/
def mergeRanges : List (Nat × Nat) → List (Nat × Nat)
  | [] => []
  | r :: rest => mergeGo r rest

/-- `PHPAnalyzer.extract_php_ranges` (php_analyzer.py:473-554). -/
def extract_php_ranges (content : List Char) (detectBlade : Bool) :
    List (Nat × Nat) :=
  let ranges :=
    (phpScanF content (content.length + 1) 0).getD [] ++
      (if detectBlade then (bladeScanF content (content.length + 1) 0).getD [] else [])
  if ranges.isEmpty then ranges
  else mergeRanges (sortRanges ranges)

example : extract_php_ranges "<p>hi</p>".toList true = [] := by decide
example :
    extract_php_ranges "<?php $x = 1; ?>ok<?php echo 2;".toList false =
      [(0, 16), (18, 31)] := by decide
example :
    extract_php_ranges "<?php '?>' ;345".toList false = [(0, 15)] := by decide
example :
    extract_php_ranges "a@php $u; @endphp b".toList true = [] := by decide
example :
    extract_php_ranges "a @php $u; @endphp b".toList true = [(2, 18)] := by decide
example :
    extract_string_literals "$x = 'ab';\n$y = \"c\\\"d\";".toList =
      [("ab".toList, 1, 6, 2), ("c\\\"d".toList, 2, 6, 4)] := by decide
example : find_block_end "ab ?> c".toList 0 "?>".toList 2 = some 3 := by decide
example : find_block_end "ab '?>' c".toList 0 "?>".toList 2 = none := by decide

/-- Depth-counting loops of `PHPAnalyzer._find_matching_parenthesis`
(php_analyzer.py:868-945) and `_find_matching_brace` (php_analyzer.py:947-1024),
which differ only in the delimiter pair; fueled.  The inner `Option Nat` is
the position of the matching closer, `none` for `-1` (also the after-loop
fall-through). -/
def matchDelimF (openC closeC : Char) (content : List Char) :
    Nat → Nat → Nat → Option (Option Nat)
  | 0, _, _ => none
  | fuel + 1, i, depth =>
    if i < content.length ∧ 0 < depth then
      if ['/', '*'].isPrefixOf (content.drop i) then
        match pyFind content "*/".toList (i + 2) with
        | some e => matchDelimF openC closeC content fuel (e + 2) depth
        | none => some none
      else if ['/', '/'].isPrefixOf (content.drop i) then
        match pyFind content ['\n'] (i + 2) with
        | some e => matchDelimF openC closeC content fuel (e + 1) depth
        | none => some none
      else if content.getD i ' ' = '#' then
        match pyFind content ['\n'] (i + 1) with
        | some e => matchDelimF openC closeC content fuel (e + 1) depth
        | none => some none
      else if content.getD i ' ' = '"' || content.getD i ' ' = '\'' then
        match skipStringF (content.getD i ' ') content (content.length + 1) (i + 1) with
        | some j => matchDelimF openC closeC content fuel j depth
        | none => none
      else if content.getD i ' ' = openC then
        matchDelimF openC closeC content fuel (i + 1) (depth + 1)
      else if content.getD i ' ' = closeC then
        if depth = 1 then some (some i)
        else matchDelimF openC closeC content fuel (i + 1) (depth - 1)
      else matchDelimF openC closeC content fuel (i + 1) depth
    else some none

/-- `PHPAnalyzer._find_matching_parenthesis` (php_analyzer.py:868-945). -/
def find_matching_parenthesis (content : List Char) (openParenPos : Nat) :
    Option Nat :=
  if openParenPos < content.length ∧ content.getD openParenPos ' ' = '(' then
    (matchDelimF '(' ')' content (content.length + 1) (openParenPos + 1) 1).getD none
  else none

/-- `PHPAnalyzer._find_matching_brace` (php_analyzer.py:947-1024). -/
def find_matching_brace (content : List Char) (openBracePos : Nat) :
    Option Nat :=
  if openBracePos < content.length ∧ content.getD openBracePos ' ' = '\x7b' then
    (matchDelimF '\x7b' '\x7d' content (content.length + 1) (openBracePos + 1) 1).getD none
  else none

example :
    find_matching_parenthesis "f(a, (b), 'x)')z".toList 1 = some 14 := by decide
example : find_matching_parenthesis "f(a".toList 1 = none := by decide

/-! Cursor bounds and fuel sufficiency for the scan loops (claim C9). -/

theorem isPrefixOf_length_le {a b : List Char} (h : a.isPrefixOf b = true) :
    a.length ≤ b.length :=
  (List.isPrefixOf_iff_prefix.mp h).length_le

theorem findFrom_some {needle : List Char} :
    ∀ {l : List Char} {k : Nat}, findFrom needle l = some k →
      needle.isPrefixOf (l.drop k) = true := by
  intro l
  induction l with
  | nil =>
    intro k h
    rw [findFrom] at h
    split at h
    · rename_i he
      obtain rfl : 0 = k := by simpa using h
      rw [List.isEmpty_iff] at he
      subst he
      simp [List.isPrefixOf]
    · simp at h
  | cons c rest ih =>
    intro k h
    rw [findFrom] at h
    split at h
    · rename_i hp
      obtain rfl : 0 = k := by simpa using h
      simpa using hp
    · obtain ⟨k', hk', rfl⟩ := Option.map_eq_some'.mp h
      rw [List.drop_succ_cons]
      exact ih hk'

theorem pyFind_some {hay needle : List Char} {s k : Nat}
    (h : pyFind hay needle s = some k) :
    s ≤ k ∧ needle.isPrefixOf (hay.drop k) = true := by
  unfold pyFind at h
  obtain ⟨k', hk', rfl⟩ := Option.map_eq_some'.mp h
  refine ⟨by omega, ?_⟩
  have := findFrom_some hk'
  rw [List.drop_drop] at this
  rwa [Nat.add_comm]

theorem pyFind_fits {hay needle : List Char} {s k : Nat}
    (h : pyFind hay needle s = some k) (hne : needle ≠ []) :
    k + needle.length ≤ hay.length := by
  have h2 := (pyFind_some h).2
  have h3 := isPrefixOf_length_le h2
  have h4 : 0 < needle.length := List.length_pos.mpr hne
  rw [List.length_drop] at h3
  omega

theorem skipStringF_le {q : Char} {content : List Char} :
    ∀ {fuel i j : Nat}, skipStringF q content fuel i = some j →
      i ≤ j ∧ (i ≤ content.length → j ≤ content.length) := by
  intro fuel
  induction fuel with
  | zero => intro i j h; simp [skipStringF] at h
  | succ fuel ih =>
    intro i j h
    rw [skipStringF] at h
    split at h
    · rename_i hi
      split at h
      · rename_i hb
        simp only [Bool.and_eq_true, decide_eq_true_eq] at hb
        obtain ⟨h3, h4⟩ := ih h
        exact ⟨by omega, fun _ => h4 (by omega)⟩
      · split at h
        · obtain rfl : i + 1 = j := by simpa using h
          exact ⟨by omega, fun _ => by omega⟩
        · obtain ⟨h3, h4⟩ := ih h
          exact ⟨by omega, fun _ => h4 (by omega)⟩
    · obtain rfl : i = j := by simpa using h
      exact ⟨Nat.le_refl _, fun hl => hl⟩

theorem skipStringF_sufficient (q : Char) (content : List Char) :
    ∀ (fuel i : Nat), content.length - i < fuel →
      (skipStringF q content fuel i).isSome = true := by
  intro fuel
  induction fuel with
  | zero => intro i h; exact absurd h (by omega)
  | succ fuel ih =>
    intro i h
    rw [skipStringF]
    split
    · rename_i hi
      split
      · rename_i hb
        simp only [Bool.and_eq_true, decide_eq_true_eq] at hb
        exact ih (i + 2) (by omega)
      · split
        · simp
        · exact ih (i + 1) (by omega)
    · simp

theorem findBlockEndF_sufficient (content endMarker : List Char) (L : Nat) :
    ∀ (fuel i : Nat), content.length - i < fuel →
      (findBlockEndF content endMarker L fuel i).isSome = true := by
  intro fuel
  induction fuel with
  | zero => intro i h; exact absurd h (by omega)
  | succ fuel ih =>
    intro i h
    rw [findBlockEndF]
    split
    · rename_i hi
      have hil : i < content.length := by omega
      split
      · split
        · rename_i e he
          have := pyFind_some he
          exact ih (e + 2) (by omega)
        · simp
      · split
        · split
          · rename_i e he
            have := pyFind_some he
            exact ih (e + 1) (by omega)
          · simp
        · split
          · split
            · rename_i e he
              have := pyFind_some he
              exact ih (e + 1) (by omega)
            · simp
          · split
            · split
              · rename_i j hj
                have := (skipStringF_le hj).1
                exact ih j (by omega)
              · rename_i hj
                have hs := skipStringF_sufficient (content.getD i ' ') content
                  (content.length + 1) (i + 1) (by omega)
                rw [hj] at hs
                simp at hs
            · split
              · simp
              · exact ih (i + 1) (by omega)
    · simp

theorem findBlockEndF_some_bounds (content endMarker : List Char) (L : Nat) :
    ∀ {fuel i r : Nat}, findBlockEndF content endMarker L fuel i = some (some r) →
      i ≤ r ∧ endMarker.isPrefixOf (content.drop r) = true := by
  intro fuel
  induction fuel with
  | zero => intro i r h; simp [findBlockEndF] at h
  | succ fuel ih =>
    intro i r h
    rw [findBlockEndF] at h
    split at h
    · split at h
      · split at h
        · rename_i e he
          have := pyFind_some he
          obtain ⟨h3, h4⟩ := ih h
          exact ⟨by omega, h4⟩
        · simp at h
      · split at h
        · split at h
          · rename_i e he
            have := pyFind_some he
            obtain ⟨h3, h4⟩ := ih h
            exact ⟨by omega, h4⟩
          · simp at h
        · split at h
          · split at h
            · rename_i e he
              have := pyFind_some he
              obtain ⟨h3, h4⟩ := ih h
              exact ⟨by omega, h4⟩
            · simp at h
          · split at h
            · split at h
              · rename_i j hj
                have := (skipStringF_le hj).1
                obtain ⟨h3, h4⟩ := ih h
                exact ⟨by omega, h4⟩
              · simp at h
            · split at h
              · rename_i hm
                obtain rfl : i = r := by simpa using h
                exact ⟨Nat.le_refl _, hm⟩
              · obtain ⟨h3, h4⟩ := ih h
                exact ⟨by omega, h4⟩
    · simp at h

theorem find_block_end_some {content endMarker : List Char} {L s r : Nat}
    (h : find_block_end content s endMarker L = some r) :
    s ≤ r ∧ endMarker.isPrefixOf (content.drop r) = true := by
  unfold find_block_end at h
  cases hf : findBlockEndF content endMarker L (content.length + 1) s with
  | none =>
    have := findBlockEndF_sufficient content endMarker L (content.length + 1) s (by omega)
    rw [hf] at this
    simp at this
  | some o =>
    rw [hf] at h
    simp only [Option.getD_some] at h
    subst h
    exact findBlockEndF_some_bounds content endMarker L hf

theorem find_block_end_fits {content endMarker : List Char} {L s r : Nat}
    (h : find_block_end content s endMarker L = some r) (hne : endMarker ≠ []) :
    r + endMarker.length ≤ content.length := by
  have h2 := (find_block_end_some h).2
  have h3 := isPrefixOf_length_le h2
  have h4 : 0 < endMarker.length := List.length_pos.mpr hne
  rw [List.length_drop] at h3
  omega

theorem matchDelimF_sufficient (openC closeC : Char) (content : List Char) :
    ∀ (fuel i depth : Nat), content.length - i < fuel →
      (matchDelimF openC closeC content fuel i depth).isSome = true := by
  intro fuel
  induction fuel with
  | zero => intro i depth h; exact absurd h (by omega)
  | succ fuel ih =>
    intro i depth h
    rw [matchDelimF]
    split
    · rename_i hc
      obtain ⟨hil, hd⟩ := hc
      split
      · split
        · rename_i e he
          have := pyFind_some he
          exact ih (e + 2) depth (by omega)
        · simp
      · split
        · split
          · rename_i e he
            have := pyFind_some he
            exact ih (e + 1) depth (by omega)
          · simp
        · split
          · split
            · rename_i e he
              have := pyFind_some he
              exact ih (e + 1) depth (by omega)
            · simp
          · split
            · split
              · rename_i j hj
                have := (skipStringF_le hj).1
                exact ih j depth (by omega)
              · rename_i hj
                have hs := skipStringF_sufficient (content.getD i ' ') content
                  (content.length + 1) (i + 1) (by omega)
                rw [hj] at hs
                simp at hs
            · split
              · exact ih (i + 1) (depth + 1) (by omega)
              · split
                · split
                  · simp
                  · exact ih (i + 1) (depth - 1) (by omega)
                · exact ih (i + 1) depth (by omega)
    · simp

theorem extractStringBodyF_le {q : Char} {content : List Char} :
    ∀ {fuel i j : Nat} {res : Option (List Char)},
      extractStringBodyF q content fuel i = some (j, res) →
      i ≤ j ∧ (i ≤ content.length → j ≤ content.length) := by
  intro fuel
  induction fuel with
  | zero => intro i j res h; simp [extractStringBodyF] at h
  | succ fuel ih =>
    intro i j res h
    rw [extractStringBodyF] at h
    split at h
    · rename_i hi
      split at h
      · rename_i hb
        simp only [Bool.and_eq_true, decide_eq_true_eq] at hb
        split at h
        · rename_i j2 chars hrec
          simp only [Option.some.injEq, Prod.mk.injEq] at h
          obtain ⟨rfl, -⟩ := h
          obtain ⟨h3, h4⟩ := ih hrec
          exact ⟨by omega, fun _ => h4 (by omega)⟩
        · rename_i j2 hrec
          simp only [Option.some.injEq, Prod.mk.injEq] at h
          obtain ⟨rfl, -⟩ := h
          obtain ⟨h3, h4⟩ := ih hrec
          exact ⟨by omega, fun _ => h4 (by omega)⟩
        · simp at h
      · split at h
        · simp only [Option.some.injEq, Prod.mk.injEq] at h
          obtain ⟨rfl, -⟩ := h
          exact ⟨by omega, fun _ => by omega⟩
        · split at h
          · rename_i j2 chars hrec
            simp only [Option.some.injEq, Prod.mk.injEq] at h
            obtain ⟨rfl, -⟩ := h
            obtain ⟨h3, h4⟩ := ih hrec
            exact ⟨by omega, fun _ => h4 (by omega)⟩
          · rename_i j2 hrec
            simp only [Option.some.injEq, Prod.mk.injEq] at h
            obtain ⟨rfl, -⟩ := h
            obtain ⟨h3, h4⟩ := ih hrec
            exact ⟨by omega, fun _ => h4 (by omega)⟩
          · simp at h
    · simp only [Option.some.injEq, Prod.mk.injEq] at h
      obtain ⟨rfl, -⟩ := h
      exact ⟨Nat.le_refl _, fun hl => hl⟩

theorem extractStringBodyF_sufficient (q : Char) (content : List Char) :
    ∀ (fuel i : Nat), content.length - i < fuel →
      (extractStringBodyF q content fuel i).isSome = true := by
  intro fuel
  induction fuel with
  | zero => intro i h; exact absurd h (by omega)
  | succ fuel ih =>
    intro i h
    rw [extractStringBodyF]
    split
    · rename_i hi
      split
      · rename_i hb
        simp only [Bool.and_eq_true, decide_eq_true_eq] at hb
        have := ih (i + 2) (by omega)
        cases hrec : extractStringBodyF q content fuel (i + 2) with
        | none => rw [hrec] at this; simp at this
        | some pr => obtain ⟨j, res⟩ := pr; cases res <;> simp [hrec]
      · split
        · simp
        · have := ih (i + 1) (by omega)
          cases hrec : extractStringBodyF q content fuel (i + 1) with
          | none => rw [hrec] at this; simp at this
          | some pr => obtain ⟨j, res⟩ := pr; cases res <;> simp [hrec]
    · simp

theorem extractStringLiteralsF_sufficient (content : List Char) :
    ∀ (fuel i : Nat), content.length - i < fuel →
      (extractStringLiteralsF content fuel i).isSome = true := by
  intro fuel
  induction fuel with
  | zero => intro i h; exact absurd h (by omega)
  | succ fuel ih =>
    intro i h
    rw [extractStringLiteralsF]
    split
    · rename_i hi
      split
      · split
        · rename_i e he
          have := pyFind_some he
          exact ih (e + 2) (by omega)
        · simp
      · split
        · split
          · rename_i e he
            have := pyFind_some he
            exact ih (e + 1) (by omega)
          · simp
        · split
          · split
            · rename_i e he
              have := pyFind_some he
              exact ih (e + 1) (by omega)
            · simp
          · split
            · split
              · rename_i j chars hbody
                have hj := (extractStringBodyF_le hbody).1
                split
                · have := ih j (by omega)
                  cases hrec : extractStringLiteralsF content fuel j with
                  | none => rw [hrec] at this; simp at this
                  | some rest => simp [hrec]
                · exact ih j (by omega)
              · rename_i j hbody
                have hj := (extractStringBodyF_le hbody).1
                exact ih j (by omega)
              · rename_i hbody
                have hs := extractStringBodyF_sufficient (content.getD i ' ') content
                  (content.length + 1) (i + 1) (by omega)
                rw [hbody] at hs
                simp at hs
            · exact ih (i + 1) (by omega)
    · simp

/-- Claim C9: the scan primitives terminate on arbitrary (including
malformed, unbalanced, unterminated) input.  Each `while` loop is embedded
with one unit of fuel per iteration, and every iteration strictly advances
the scanning offset, so fuel `content.length + 1` always completes: the
fueled loops of `find_block_end`, `extract_string_literals` and
`_find_matching_parenthesis` never exhaust their fuel, for every content,
start position, marker, and nesting depth. -/
theorem C9_scan_loops_terminate :
    (∀ (content endMarker : List Char) (markerLen startPos : Nat),
      (findBlockEndF content endMarker markerLen
        (content.length + 1) startPos).isSome = true)
    ∧ (∀ (content : List Char) (startPos : Nat),
      (extractStringLiteralsF content (content.length + 1) startPos).isSome = true)
    ∧ (∀ (content : List Char) (startPos depth : Nat),
      (matchDelimF '(' ')' content
        (content.length + 1) startPos depth).isSome = true) :=
  ⟨fun content m L s => findBlockEndF_sufficient content m L _ s (by omega),
   fun content s => extractStringLiteralsF_sufficient content _ s (by omega),
   fun content s d => matchDelimF_sufficient '(' ')' content _ s d (by omega)⟩

theorem phpScanF_sufficient (content : List Char) :
    ∀ (fuel pos : Nat), content.length - pos < fuel →
      (phpScanF content fuel pos).isSome = true := by
  intro fuel
  induction fuel with
  | zero => intro pos h; exact absurd h (by omega)
  | succ fuel ih =>
    intro pos h
    rw [phpScanF]
    split
    · simp
    · rename_i i hfind
      have h1 := pyFind_some hfind
      have h2 := pyFind_fits hfind (by decide)
      split
      · simp
      · rename_i e hfbe
        have h3 := (find_block_end_some hfbe).1
        have h4 := find_block_end_fits hfbe (by decide)
        have := ih (e + 2) (by simp at h2 h4; omega)
        cases hrec : phpScanF content fuel (e + 2) with
        | none => rw [hrec] at this; simp at this
        | some rest => simp [hrec]

theorem bladeScanF_sufficient (content : List Char) :
    ∀ (fuel pos : Nat), content.length - pos < fuel →
      (bladeScanF content fuel pos).isSome = true := by
  intro fuel
  induction fuel with
  | zero => intro pos h; exact absurd h (by omega)
  | succ fuel ih =>
    intro pos h
    rw [bladeScanF]
    split
    · simp
    · rename_i i hfind
      have h1 := pyFind_some hfind
      have h2 := pyFind_fits hfind (by decide)
      split
      · exact ih (i + 4) (by simp at h2; omega)
      · split
        · simp
        · rename_i e hfbe
          have h3 := (find_block_end_some hfbe).1
          have h4 := find_block_end_fits hfbe (by decide)
          split
          · exact ih (e + 1) (by simp at h2 h4; omega)
          · have := ih (e + 7) (by simp at h2 h4; omega)
            cases hrec : bladeScanF content fuel (e + 7) with
            | none => rw [hrec] at this; simp at this
            | some rest => simp [hrec]

/-- Claim C6 as stated is false for a non-first unterminated opener adjacent
to a closed block: in `"<?php a ?><?php b"` (length 17) the `<?php` at
offset 10 has no subsequent matching `?>` (`find_block_end` from 15 returns
the `-1` sentinel), yet `extract_php_ranges` returns `[(0, 17)]` — the merge
step coalesces `(0, 10)` and `(10, 17)`, so no returned range starts at that
opener. -/
theorem C6_open_ended_php_block_counterexample :
    "<?php".toList.isPrefixOf (("<?php a ?><?php b".toList).drop 10) = true ∧
    find_block_end "<?php a ?><?php b".toList (10 + 5) "?>".toList 2 = none ∧
    extract_php_ranges "<?php a ?><?php b".toList false = [(0, 17)] ∧
    ((10, 17) ∉ extract_php_ranges "<?php a ?><?php b".toList false) := by
  refine ⟨by decide, by decide, by decide, by decide⟩

/-! Claim C7: the sort-merge normalization yields sorted, disjoint ranges. -/

theorem mergeGo_head (cur : Nat × Nat) (l : List (Nat × Nat)) :
    ∃ (x : Nat) (t : List (Nat × Nat)), mergeGo cur l = (cur.1, x) :: t := by
  induction l generalizing cur with
  | nil => exact ⟨cur.2, [], rfl⟩
  | cons r rest ih =>
    by_cases h : r.1 ≤ cur.2
    · obtain ⟨x, t, ht⟩ := ih (cur.1, max cur.2 r.2)
      exact ⟨x, t, by rw [mergeGo, if_pos h]; exact ht⟩
    · exact ⟨cur.2, mergeGo r rest, by rw [mergeGo, if_neg h]⟩

theorem mergeGo_chain (l : List (Nat × Nat)) :
    ∀ cur : Nat × Nat, List.Chain' (fun a b => a.2 < b.1) (mergeGo cur l) := by
  induction l with
  | nil => intro cur; simp [mergeGo]
  | cons r rest ih =>
    intro cur
    rw [mergeGo]
    split
    · exact ih (cur.1, max cur.2 r.2)
    · rename_i h
      obtain ⟨x, t, ht⟩ := mergeGo_head r rest
      rw [ht]
      exact List.Chain'.cons (by simp only; omega) (ht ▸ ih r)

theorem mergeGo_valid (l : List (Nat × Nat)) :
    ∀ cur : Nat × Nat, cur.1 ≤ cur.2 → (∀ r ∈ l, r.1 ≤ r.2) →
      ∀ r ∈ mergeGo cur l, r.1 ≤ r.2 := by
  induction l with
  | nil =>
    intro cur hcur _ r hr
    rw [mergeGo] at hr
    simp at hr
    subst hr
    exact hcur
  | cons q rest ih =>
    intro cur hcur hall r hr
    rw [mergeGo] at hr
    split at hr
    · exact ih (cur.1, max cur.2 q.2) (by simp; omega)
        (fun p hp => hall p (List.mem_cons_of_mem _ hp)) r hr
    · rcases List.mem_cons.mp hr with rfl | hr'
      · exact hcur
      · exact ih q (hall q (List.mem_cons_self _ _))
          (fun p hp => hall p (List.mem_cons_of_mem _ hp)) r hr'

theorem insertRange_mem {x y : Nat × Nat} :
    ∀ {l : List (Nat × Nat)}, y ∈ insertRange x l ↔ y = x ∨ y ∈ l := by
  intro l
  induction l with
  | nil => simp [insertRange]
  | cons z rest ih =>
    rw [insertRange]
    split
    · simp
    · simp only [List.mem_cons, ih]
      tauto

theorem sortRanges_mem {y : Nat × Nat} :
    ∀ {l : List (Nat × Nat)}, y ∈ sortRanges l ↔ y ∈ l := by
  intro l
  induction l with
  | nil => simp [sortRanges]
  | cons z rest ih =>
    rw [sortRanges, insertRange_mem]
    simp [ih]

theorem phpScanF_valid (content : List Char) :
    ∀ {fuel pos : Nat} {rs : List (Nat × Nat)},
      phpScanF content fuel pos = some rs → ∀ r ∈ rs, r.1 < r.2 := by
  intro fuel
  induction fuel with
  | zero => intro pos rs h; simp [phpScanF] at h
  | succ fuel ih =>
    intro pos rs h
    rw [phpScanF] at h
    split at h
    · obtain rfl : [] = rs := by simpa using h
      simp
    · rename_i i hfind
      have hfit := pyFind_fits hfind (by decide)
      split at h
      · obtain rfl : [(i, content.length)] = rs := by simpa using h
        intro r hr
        rw [List.mem_singleton] at hr
        subst hr
        simp at hfit ⊢
        omega
      · rename_i e hfbe
        have h3 := (find_block_end_some hfbe).1
        split at h
        · rename_i rest hrec
          obtain rfl : (i, e + 2) :: rest = rs := by simpa using h
          intro r hr
          rcases List.mem_cons.mp hr with rfl | hr'
          · simp; omega
          · exact ih hrec r hr'
        · simp at h

theorem bladeScanF_valid (content : List Char) :
    ∀ {fuel pos : Nat} {rs : List (Nat × Nat)},
      bladeScanF content fuel pos = some rs → ∀ r ∈ rs, r.1 < r.2 := by
  intro fuel
  induction fuel with
  | zero => intro pos rs h; simp [bladeScanF] at h
  | succ fuel ih =>
    intro pos rs h
    rw [bladeScanF] at h
    split at h
    · obtain rfl : [] = rs := by simpa using h
      simp
    · rename_i i hfind
      have hfit := pyFind_fits hfind (by decide)
      split at h
      · exact ih h
      · split at h
        · obtain rfl : [(i, content.length)] = rs := by simpa using h
          intro r hr
          rw [List.mem_singleton] at hr
          subst hr
          simp at hfit ⊢
          omega
        · rename_i e hfbe
          have h3 := (find_block_end_some hfbe).1
          split at h
          · exact ih h
          · split at h
            · rename_i rest hrec
              obtain rfl : (i, e + 7) :: rest = rs := by simpa using h
              intro r hr
              rcases List.mem_cons.mp hr with rfl | hr'
              · simp; omega
              · exact ih hrec r hr'
            · simp at h

theorem chain_start_lt {l : List (Nat × Nat)}
    (h1 : List.Chain' (fun a b => a.2 < b.1) l)
    (h2 : ∀ r ∈ l, r.1 ≤ r.2) :
    List.Chain' (fun a b : Nat × Nat => a.1 < b.1) l := by
  induction l with
  | nil => simp
  | cons a rest ih =>
    cases rest with
    | nil => simp
    | cons b t =>
      rw [List.chain'_cons] at h1 ⊢
      refine ⟨?_, ih h1.2 (fun r hr => h2 r (List.mem_cons_of_mem _ hr))⟩
      have ha := h2 a (List.mem_cons_self _ _)
      omega

/-- Claim C7: for every content and mode, the list returned by
`extract_php_ranges` is pairwise disjoint — every range's start is strictly
greater than the preceding range's end — and sorted by strictly increasing
start offset. -/
theorem C7_ranges_sorted_disjoint (content : List Char) (detectBlade : Bool) :
    List.Chain' (fun a b => a.2 < b.1) (extract_php_ranges content detectBlade)
    ∧ List.Chain' (fun a b : Nat × Nat => a.1 < b.1)
        (extract_php_ranges content detectBlade) := by
  have hvalid : ∀ r ∈ (phpScanF content (content.length + 1) 0).getD [] ++
      (if detectBlade then (bladeScanF content (content.length + 1) 0).getD []
       else []), r.1 < r.2 := by
    intro r hr
    rcases List.mem_append.mp hr with h | h
    · cases hp : phpScanF content (content.length + 1) 0 with
      | none => rw [hp] at h; simp at h
      | some rs =>
        rw [hp] at h
        simp only [Option.getD_some] at h
        exact phpScanF_valid content hp r h
    · split at h
      · cases hb : bladeScanF content (content.length + 1) 0 with
        | none => rw [hb] at h; simp at h
        | some rs =>
          rw [hb] at h
          simp only [Option.getD_some] at h
          exact bladeScanF_valid content hb r h
      · simp at h
  have main : ∀ l : List (Nat × Nat), (∀ r ∈ l, r.1 < r.2) →
      List.Chain' (fun a b => a.2 < b.1)
        (if l.isEmpty then l else mergeRanges (sortRanges l)) ∧
      List.Chain' (fun a b : Nat × Nat => a.1 < b.1)
        (if l.isEmpty then l else mergeRanges (sortRanges l)) := by
    intro l hl
    split
    · rename_i he
      rw [List.isEmpty_iff] at he
      subst he
      simp
    · have hv : ∀ r ∈ sortRanges l, r.1 ≤ r.2 :=
        fun r hr => Nat.le_of_lt (hl r (sortRanges_mem.mp hr))
      cases hs : sortRanges l with
      | nil => simp [mergeRanges]
      | cons a t =>
        rw [mergeRanges]
        have hc := mergeGo_chain t a
        have hmv := mergeGo_valid t a
          (hv a (hs ▸ List.mem_cons_self _ _))
          (fun p hp => hv p (hs ▸ List.mem_cons_of_mem _ hp))
        exact ⟨hc, chain_start_lt hc hmv⟩
  exact main _ hvalid

/-! Supporting lemmas for the amended claim C6: the sorted input to the
merge loop, end-of-content bounds, and coverage preservation by merging. -/

theorem lexLe_start_le {a b : Nat × Nat} (h : lexLe a b = true) :
    a.1 ≤ b.1 := by
  simp only [lexLe, Bool.or_eq_true, Bool.and_eq_true, decide_eq_true_eq] at h
  omega

theorem insertRange_pairwise {x : Nat × Nat} :
    ∀ {l : List (Nat × Nat)},
      List.Pairwise (fun a b : Nat × Nat => a.1 ≤ b.1) l →
      List.Pairwise (fun a b : Nat × Nat => a.1 ≤ b.1) (insertRange x l) := by
  intro l
  induction l with
  | nil => intro _; simp [insertRange]
  | cons y rest ih =>
    intro h
    obtain ⟨hy, hrest⟩ := List.pairwise_cons.mp h
    rw [insertRange]
    by_cases hxy : lexLe x y = true
    · rw [if_pos hxy]
      refine List.pairwise_cons.mpr ⟨?_, h⟩
      intro a ha
      rcases List.mem_cons.mp ha with rfl | ha'
      · exact lexLe_start_le hxy
      · have h1 := hy a ha'
        have h2 := lexLe_start_le hxy
        omega
    · rw [if_neg hxy]
      refine List.pairwise_cons.mpr ⟨?_, ih hrest⟩
      intro a ha
      rcases insertRange_mem.mp ha with rfl | ha'
      · have hcon : ¬ (a.1 < y.1 ∨ (a.1 = y.1 ∧ a.2 ≤ y.2)) := by
          intro hcon
          apply hxy
          simp only [lexLe, Bool.or_eq_true, Bool.and_eq_true, decide_eq_true_eq]
          exact hcon
        omega
      · exact hy a ha'

theorem sortRanges_pairwise (l : List (Nat × Nat)) :
    List.Pairwise (fun a b : Nat × Nat => a.1 ≤ b.1) (sortRanges l) := by
  induction l with
  | nil => simp [sortRanges]
  | cons x rest ih =>
    rw [sortRanges]
    exact insertRange_pairwise ih

theorem phpScanF_ends_le (content : List Char) :
    ∀ {fuel pos : Nat} {rs : List (Nat × Nat)},
      phpScanF content fuel pos = some rs → ∀ r ∈ rs, r.2 ≤ content.length := by
  intro fuel
  induction fuel with
  | zero => intro pos rs h; simp [phpScanF] at h
  | succ fuel ih =>
    intro pos rs h
    rw [phpScanF] at h
    split at h
    · obtain rfl : [] = rs := by simpa using h
      simp
    · rename_i i hfind
      split at h
      · obtain rfl : [(i, content.length)] = rs := by simpa using h
        intro r hr
        rw [List.mem_singleton] at hr
        subst hr
        simp
      · rename_i e hfbe
        have h4 := find_block_end_fits hfbe (by decide)
        split at h
        · rename_i rest hrec
          obtain rfl : (i, e + 2) :: rest = rs := by simpa using h
          intro r hr
          rcases List.mem_cons.mp hr with rfl | hr'
          · simp at h4 ⊢
            omega
          · exact ih hrec r hr'
        · simp at h

theorem bladeScanF_ends_le (content : List Char) :
    ∀ {fuel pos : Nat} {rs : List (Nat × Nat)},
      bladeScanF content fuel pos = some rs → ∀ r ∈ rs, r.2 ≤ content.length := by
  intro fuel
  induction fuel with
  | zero => intro pos rs h; simp [bladeScanF] at h
  | succ fuel ih =>
    intro pos rs h
    rw [bladeScanF] at h
    split at h
    · obtain rfl : [] = rs := by simpa using h
      simp
    · rename_i i hfind
      split at h
      · exact ih h
      · split at h
        · obtain rfl : [(i, content.length)] = rs := by simpa using h
          intro r hr
          rw [List.mem_singleton] at hr
          subst hr
          simp
        · rename_i e hfbe
          have h4 := find_block_end_fits hfbe (by decide)
          split at h
          · exact ih h
          · split at h
            · rename_i rest hrec
              obtain rfl : (i, e + 7) :: rest = rs := by simpa using h
              intro r hr
              rcases List.mem_cons.mp hr with rfl | hr'
              · simp at h4 ⊢
                omega
              · exact ih hrec r hr'
            · simp at h

theorem mergeGo_ends_le :
    ∀ (l : List (Nat × Nat)) (cur : Nat × Nat) (M : Nat),
      cur.2 ≤ M → (∀ r ∈ l, r.2 ≤ M) →
      ∀ r ∈ mergeGo cur l, r.2 ≤ M := by
  intro l
  induction l with
  | nil =>
    intro cur M hc _ r hr
    rw [mergeGo] at hr
    rw [List.mem_singleton] at hr
    subst hr
    exact hc
  | cons q rest ih =>
    intro cur M hc hall r hr
    rw [mergeGo] at hr
    split at hr
    · refine ih (cur.1, max cur.2 q.2) M ?_
        (fun x hx => hall x (List.mem_cons_of_mem _ hx)) r hr
      exact Nat.max_le.mpr ⟨hc, hall q (List.mem_cons_self _ _)⟩
    · rcases List.mem_cons.mp hr with rfl | hr'
      · exact hc
      · exact ih q M (hall q (List.mem_cons_self _ _))
          (fun x hx => hall x (List.mem_cons_of_mem _ hx)) r hr'

theorem mergeGo_covers :
    ∀ (l : List (Nat × Nat)) (cur : Nat × Nat),
      (∀ r ∈ l, cur.1 ≤ r.1) →
      List.Pairwise (fun a b : Nat × Nat => a.1 ≤ b.1) l →
      ∀ r ∈ cur :: l, ∃ r2 ∈ mergeGo cur l, r2.1 ≤ r.1 ∧ r.2 ≤ r2.2 := by
  intro l
  induction l with
  | nil =>
    intro cur _ _ r hr
    rw [List.mem_singleton] at hr
    subst hr
    exact ⟨r, by simp [mergeGo], Nat.le_refl _, Nat.le_refl _⟩
  | cons q rest ih =>
    intro cur hcur hpair r hr
    obtain ⟨hqrest, hpair'⟩ := List.pairwise_cons.mp hpair
    by_cases hq : q.1 ≤ cur.2
    · rw [mergeGo, if_pos hq]
      have hcur' : ∀ x ∈ rest, (cur.1, max cur.2 q.2).1 ≤ x.1 := by
        intro x hx
        exact hcur x (List.mem_cons_of_mem _ hx)
      obtain ⟨r2, hm, h1, h2⟩ := ih (cur.1, max cur.2 q.2) hcur' hpair'
        (cur.1, max cur.2 q.2) (List.mem_cons_self _ _)
      have ha : r2.1 ≤ cur.1 := by simpa using h1
      have hb2 : max cur.2 q.2 ≤ r2.2 := by simpa using h2
      rcases List.mem_cons.mp hr with rfl | hr1
      · have hm1 : r.2 ≤ max r.2 q.2 := Nat.le_max_left _ _
        exact ⟨r2, hm, by omega, by omega⟩
      · rcases List.mem_cons.mp hr1 with rfl | hr2
        · have hc1 : cur.1 ≤ r.1 := hcur r (List.mem_cons_self _ _)
          have hm2 : r.2 ≤ max cur.2 r.2 := Nat.le_max_right _ _
          exact ⟨r2, hm, by omega, by omega⟩
        · exact ih (cur.1, max cur.2 q.2) hcur' hpair' r
            (List.mem_cons_of_mem _ hr2)
    · rw [mergeGo, if_neg hq]
      rcases List.mem_cons.mp hr with rfl | hr1
      · exact ⟨r, List.mem_cons_self _ _, Nat.le_refl _, Nat.le_refl _⟩
      · obtain ⟨r2, hm, h1, h2⟩ := ih q hqrest hpair' r hr1
        exact ⟨r2, List.mem_cons_of_mem _ hm, h1, h2⟩

/-- Claim C6 amended: the open-ended script-block policy, stated on the scan
loop and on `extract_php_ranges`.  (1) Whenever the `<?php` scan loop, at
any position and with fuel left, finds an opener whose comment/string-aware
close search finds no `?>` (`find_block_end` returns the `-1` sentinel,
modelled `none`), it ends the scan with the single range from that opener to
the end of the content.  (2) For every opener whose open-ended range the
scan recorded, the merged output of `extract_php_ranges` still contains a
range that covers that opener and extends to the end of the content, though
its start may be an earlier coalesced opener.  (3) When the failing opener
is the first `<?php` of the content, `extract_php_ranges` returns exactly
`[(opener, length)]`.  (4) A content with no `<?php` at all yields the empty
range list (no exception in any case: the function is total). -/
theorem C6_open_ended_php_block_amended :
    (∀ (content : List Char) (fuel pos i : Nat),
      pyFind content "<?php".toList pos = some i →
      find_block_end content (i + 5) "?>".toList 2 = none →
      0 < fuel →
      phpScanF content fuel pos = some [(i, content.length)])
    ∧ (∀ (content : List Char) (b : Bool) (i : Nat),
      (i, content.length) ∈
        (phpScanF content (content.length + 1) 0).getD [] →
      ∃ r ∈ extract_php_ranges content b,
        r.1 ≤ i ∧ i < r.2 ∧ r.2 = content.length)
    ∧ (∀ (content : List Char) (i : Nat),
      pyFind content "<?php".toList 0 = some i →
      find_block_end content (i + 5) "?>".toList 2 = none →
      extract_php_ranges content false = [(i, content.length)])
    ∧ (∀ content : List Char,
      pyFind content "<?php".toList 0 = none →
      extract_php_ranges content false = []) := by
  have part1 : ∀ (content : List Char) (fuel pos i : Nat),
      pyFind content "<?php".toList pos = some i →
      find_block_end content (i + 5) "?>".toList 2 = none →
      0 < fuel →
      phpScanF content fuel pos = some [(i, content.length)] := by
    intro content fuel pos i hfind hfbe hfuel
    cases fuel with
    | zero => exact absurd hfuel (by omega)
    | succ f =>
      have hstep : phpScanF content (f + 1) pos =
          match find_block_end content (i + 5) "?>".toList 2 with
          | none => some [(i, content.length)]
          | some e =>
            match phpScanF content f (e + 2) with
            | some rest => some ((i, e + 2) :: rest)
            | none => none := by
        rw [phpScanF, hfind]
      rw [hstep, hfbe]
  refine ⟨part1, ?_, ?_, ?_⟩
  · intro content b i hmem
    cases hp : phpScanF content (content.length + 1) 0 with
    | none => rw [hp] at hmem; simp at hmem
    | some rs =>
      rw [hp] at hmem
      simp only [Option.getD_some] at hmem
      have hilen : i < content.length := by
        have := phpScanF_valid content hp (i, content.length) hmem
        simpa using this
      have hprops : ∀ r ∈ (phpScanF content (content.length + 1) 0).getD [] ++
          (if b then (bladeScanF content (content.length + 1) 0).getD []
           else []), r.1 < r.2 ∧ r.2 ≤ content.length := by
        intro r hr
        rcases List.mem_append.mp hr with h | h
        · rw [hp] at h
          simp only [Option.getD_some] at h
          exact ⟨phpScanF_valid content hp r h, phpScanF_ends_le content hp r h⟩
        · split at h
          · cases hb : bladeScanF content (content.length + 1) 0 with
            | none => rw [hb] at h; simp at h
            | some rs2 =>
              rw [hb] at h
              simp only [Option.getD_some] at h
              exact ⟨bladeScanF_valid content hb r h,
                bladeScanF_ends_le content hb r h⟩
          · simp at h
      have hRmem : (i, content.length) ∈
          (phpScanF content (content.length + 1) 0).getD [] ++
            (if b then (bladeScanF content (content.length + 1) 0).getD []
             else []) := by
        rw [hp]
        simp only [Option.getD_some]
        exact List.mem_append.mpr (Or.inl hmem)
      have main : ∀ l : List (Nat × Nat), (i, content.length) ∈ l →
          (∀ r ∈ l, r.1 < r.2 ∧ r.2 ≤ content.length) →
          ∃ r ∈ (if l.isEmpty then l else mergeRanges (sortRanges l)),
            r.1 ≤ i ∧ i < r.2 ∧ r.2 = content.length := by
        intro l hmem2 hall
        split
        · rename_i he
          rw [List.isEmpty_iff] at he
          subst he
          simp at hmem2
        · have hmem3 : (i, content.length) ∈ sortRanges l :=
            sortRanges_mem.mpr hmem2
          have hsorted := sortRanges_pairwise l
          cases hs : sortRanges l with
          | nil => rw [hs] at hmem3; simp at hmem3
          | cons a t =>
            rw [hs] at hmem3 hsorted
            rw [mergeRanges]
            obtain ⟨hat, hpt⟩ := List.pairwise_cons.mp hsorted
            obtain ⟨r2, hm, h1, h2⟩ :=
              mergeGo_covers t a hat hpt (i, content.length) hmem3
            have h1' : r2.1 ≤ i := by simpa using h1
            have h2' : content.length ≤ r2.2 := by simpa using h2
            have hends : ∀ r ∈ sortRanges l, r.2 ≤ content.length :=
              fun r hr => (hall r (sortRanges_mem.mp hr)).2
            have ha2 : a.2 ≤ content.length :=
              hends a (hs ▸ List.mem_cons_self _ _)
            have ht2 : ∀ r ∈ t, r.2 ≤ content.length :=
              fun r hr => hends r (hs ▸ List.mem_cons_of_mem _ hr)
            have hr2le := mergeGo_ends_le t a content.length ha2 ht2 r2 hm
            exact ⟨r2, hm, h1', by omega, by omega⟩
      exact main _ hRmem hprops
  · intro content i hfind hfbe
    have hscan := part1 content (content.length + 1) 0 i hfind hfbe (by omega)
    simp [extract_php_ranges, hscan, sortRanges, insertRange, mergeRanges, mergeGo]
  · intro content hfind
    have hscan : phpScanF content (content.length + 1) 0 = some [] := by
      rw [phpScanF, hfind]
    simp [extract_php_ranges, hscan]

/-- Witness for `C6_open_ended_php_block_amended`: the first-open conjunct at
the unterminated content `"<?php $x"`, and the covering conjunct at the
counterexample content, where the coalesced range `(0, 17)` covers the
failing opener at offset 10. -/
theorem C6_open_ended_php_block_amended_witness :
    (pyFind "<?php $x".toList "<?php".toList 0 = some 0 ∧
      find_block_end "<?php $x".toList 5 "?>".toList 2 = none ∧
      extract_php_ranges "<?php $x".toList false = [(0, 8)]) ∧
    ((10, ("<?php a ?><?php b".toList).length) ∈
        (phpScanF "<?php a ?><?php b".toList
          (("<?php a ?><?php b".toList).length + 1) 0).getD [] ∧
      ∃ r ∈ extract_php_ranges "<?php a ?><?php b".toList false,
        r.1 ≤ 10 ∧ 10 < r.2 ∧ r.2 = ("<?php a ?><?php b".toList).length) :=
  ⟨⟨by decide, by decide, by
      have := C6_open_ended_php_block_amended.2.2.1 "<?php $x".toList 0
        (by decide) (by decide)
      simpa using this⟩,
   ⟨by decide,
    C6_open_ended_php_block_amended.2.1 "<?php a ?><?php b".toList false 10
      (by decide)⟩⟩

/-! Claim C10: source-order of the emitted literals. -/

/-- Strict lexicographic order on (line, column) pairs. -/
def posLt (a b : Nat × Nat) : Prop :=
  a.1 < b.1 ∨ (a.1 = b.1 ∧ a.2 < b.2)

/-- `get_line_column` is strictly monotone (lexicographically) on offsets
within the text. -/
theorem get_line_column_strict_mono {t : List Char} {p q : Nat}
    (hpq : p < q) (hq : q ≤ t.length) :
    posLt (get_line_column t p) (get_line_column t q) := by
  have hsp := roundtrip_sum t p (by omega)
  have hsq := roundtrip_sum t q hq
  have hL : (splitNL (t.take p)).length ≤ (splitNL (t.take q)).length := by
    rw [splitNL_length, splitNL_length]
    have heq : (t.take q).take p = t.take p := by
      rw [List.take_take]
      congr 1
      omega
    have hsub : (t.take p).Sublist (t.take q) := heq ▸ List.take_sublist p (t.take q)
    have := hsub.count_le '\n'
    omega
  by_cases hLeq : (splitNL (t.take p)).length = (splitNL (t.take q)).length
  · right
    refine ⟨by simpa [get_line_column] using hLeq, ?_⟩
    rw [hLeq] at hsp
    simp only [get_line_column]
    omega
  · left
    simp only [get_line_column]
    omega

theorem extractStringBodyF_closed_lt {q : Char} {content : List Char} :
    ∀ {fuel i j : Nat} {chars : List Char},
      extractStringBodyF q content fuel i = some (j, some chars) → i < j := by
  intro fuel
  induction fuel with
  | zero => intro i j chars h; simp [extractStringBodyF] at h
  | succ fuel ih =>
    intro i j chars h
    rw [extractStringBodyF] at h
    split at h
    · split at h
      · split at h
        · rename_i hrec
          simp only [Option.some.injEq, Prod.mk.injEq] at h
          obtain ⟨rfl, -⟩ := h
          have := ih hrec
          omega
        · simp only [Option.some.injEq, Prod.mk.injEq] at h
          obtain ⟨-, h2⟩ := h
          simp at h2
        · simp at h
      · split at h
        · simp only [Option.some.injEq, Prod.mk.injEq] at h
          obtain ⟨rfl, -⟩ := h
          omega
        · split at h
          · rename_i hrec
            simp only [Option.some.injEq, Prod.mk.injEq] at h
            obtain ⟨rfl, -⟩ := h
            have := ih hrec
            omega
          · simp only [Option.some.injEq, Prod.mk.injEq] at h
            obtain ⟨-, h2⟩ := h
            simp at h2
          · simp at h
    · simp only [Option.some.injEq, Prod.mk.injEq] at h
      obtain ⟨-, h2⟩ := h
      simp at h2

theorem extractStringLiteralsF_props (content : List Char) :
    ∀ {fuel i : Nat} {rs : List (List Char × Nat × Nat × Nat)},
      extractStringLiteralsF content fuel i = some rs →
      (∀ e ∈ rs, (∃ p, i ≤ p ∧ p ≤ content.length ∧
          (e.2.1, e.2.2.1) = get_line_column content p) ∧
        e.1 ≠ [] ∧ pyIsSpace e.1 = false)
      ∧ List.Chain' (fun a b => posLt (a.2.1, a.2.2.1) (b.2.1, b.2.2.1)) rs := by
  intro fuel
  induction fuel with
  | zero => intro i rs h; simp [extractStringLiteralsF] at h
  | succ fuel ih =>
    have weaken : ∀ {i i' : Nat} {rs : List (List Char × Nat × Nat × Nat)},
        i ≤ i' →
        ((∀ e ∈ rs, (∃ p, i' ≤ p ∧ p ≤ content.length ∧
            (e.2.1, e.2.2.1) = get_line_column content p) ∧
          e.1 ≠ [] ∧ pyIsSpace e.1 = false)
         ∧ List.Chain' (fun a b => posLt (a.2.1, a.2.2.1) (b.2.1, b.2.2.1)) rs) →
        ((∀ e ∈ rs, (∃ p, i ≤ p ∧ p ≤ content.length ∧
            (e.2.1, e.2.2.1) = get_line_column content p) ∧
          e.1 ≠ [] ∧ pyIsSpace e.1 = false)
         ∧ List.Chain' (fun a b => posLt (a.2.1, a.2.2.1) (b.2.1, b.2.2.1)) rs) := by
      intro i i' rs hii ⟨hall, hchain⟩
      refine ⟨fun x hx => ?_, hchain⟩
      obtain ⟨⟨p, hp1, hp2, hp3⟩, hne, hsp⟩ := hall x hx
      exact ⟨⟨p, by omega, hp2, hp3⟩, hne, hsp⟩
    intro i rs h
    rw [extractStringLiteralsF] at h
    split at h
    · rename_i hi
      split at h
      · split at h
        · rename_i e he
          have := (pyFind_some he).1
          exact weaken (by omega) (ih h)
        · obtain rfl : [] = rs := by simpa using h
          exact ⟨by simp, by simp⟩
      · split at h
        · split at h
          · rename_i e he
            have := (pyFind_some he).1
            exact weaken (by omega) (ih h)
          · obtain rfl : [] = rs := by simpa using h
            exact ⟨by simp, by simp⟩
        · split at h
          · split at h
            · rename_i e he
              have := (pyFind_some he).1
              exact weaken (by omega) (ih h)
            · obtain rfl : [] = rs := by simpa using h
              exact ⟨by simp, by simp⟩
          · split at h
            · split at h
              · rename_i j chars hbody
                have hj1 := (extractStringBodyF_le hbody).1
                have hj2 := (extractStringBodyF_le hbody).2 (by omega)
                have hjlt := extractStringBodyF_closed_lt hbody
                split at h
                · rename_i hguard
                  split at h
                  · rename_i rest hrec
                    obtain rfl : (chars, (get_line_column content (i + 1)).1,
                        (get_line_column content (i + 1)).2, chars.length) :: rest = rs := by
                      simpa using h
                    obtain ⟨hall, hchain⟩ := ih hrec
                    simp only [Bool.and_eq_true, Bool.not_eq_true'] at hguard
                    constructor
                    · intro x hx
                      rcases List.mem_cons.mp hx with rfl | hx'
                      · refine ⟨⟨i + 1, by omega, by omega, rfl⟩, ?_, hguard.2⟩
                        show chars ≠ []
                        intro hce
                        rcases hguard with ⟨hg1, -⟩
                        rw [hce] at hg1
                        simp at hg1
                      · obtain ⟨⟨p, hp1, hp2, hp3⟩, hne, hsp⟩ := hall x hx'
                        exact ⟨⟨p, by omega, hp2, hp3⟩, hne, hsp⟩
                    · cases rest with
                      | nil => simp
                      | cons r t =>
                        refine List.Chain'.cons ?_ hchain
                        obtain ⟨⟨p, hp1, hp2, hp3⟩, -, -⟩ :=
                          hall r (List.mem_cons_self _ _)
                        simp only
                        rw [hp3]
                        exact get_line_column_strict_mono (by omega) hp2
                  · simp at h
                · exact weaken (by omega) (ih h)
              · rename_i j hbody
                have hj1 := (extractStringBodyF_le hbody).1
                exact weaken (by omega) (ih h)
              · simp at h
            · exact weaken (by omega) (ih h)
    · obtain rfl : [] = rs := by simpa using h
      exact ⟨by simp, by simp⟩

/-- Claim C10: the literals emitted by `extract_string_literals` appear in
strictly increasing (line, column) lexicographic source order, and every
emitted literal is non-empty and not whitespace-only. -/
theorem C10_literals_ordered (content : List Char) :
    List.Chain' (fun a b => posLt (a.2.1, a.2.2.1) (b.2.1, b.2.2.1))
      (extract_string_literals content)
    ∧ ∀ e ∈ extract_string_literals content,
        e.1 ≠ [] ∧ pyIsSpace e.1 = false := by
  unfold extract_string_literals
  cases hf : extractStringLiteralsF content (content.length + 1) 0 with
  | none =>
    have := extractStringLiteralsF_sufficient content (content.length + 1) 0 (by omega)
    rw [hf] at this
    simp at this
  | some rs =>
    simp only [Option.getD_some]
    obtain ⟨hall, hchain⟩ := extractStringLiteralsF_props content hf
    exact ⟨hchain, fun e he => (hall e he).2⟩

/-- Witness for `C10_literals_ordered`: its membership-conditioned conjunct
applied at a concrete content and literal. -/
theorem C10_literals_ordered_witness :
    ("ab".toList, 1, 1, 2) ∈ extract_string_literals "'ab' 'c'".toList ∧
    "ab".toList ≠ [] ∧ pyIsSpace "ab".toList = false :=
  ⟨by decide,
   (C10_literals_ordered "'ab' 'c'".toList).2 ("ab".toList, 1, 1, 2) (by decide)⟩

/-!
Context-based PHP string validation (`php_analyzer.py`): call-site exclusion
patterns, excluded function-call and function-definition ranges, and the
combined `extract_and_validate_strings` pipeline.
-/

/-- Word characters of Python's regex `\b` / `\w`.  Exact on ASCII
(`[A-Za-z0-9_]`); non-ASCII code points are conservatively counted as word
characters (Python treats Unicode letters and digits as such; all content in
the theorems below is ASCII). -/
def isWordChar (c : Char) : Bool :=
  c.isAlphanum || c = '_' || 127 < c.toNat

/-- Length of the maximal whitespace run at the head of a list (`\s*`). -/
def wsRunLen (s : List Char) : Nat := (s.takeWhile isPySpace).length

/-- Index just after the maximal whitespace run starting at `i`. -/
def skipWs (content : List Char) (i : Nat) : Nat :=
  i + wsRunLen (content.drop i)

/-- One call-site exclusion pattern of `_get_exclusion_patterns`
(php_analyzer.py:293-348): `wordFn f` is `\bf\s*\(`, `litFn l` is the
escaped literal followed by `\s*\(` (static methods, Blade directives,
instance-method forms), and `kw k` is `\bk\s+` (the `echo`/`print`
statement regexes). -/
inductive ExclPat where
  | wordFn (name : List Char)
  | litFn (lit : List Char)
  | kw (name : List Char)
deriving DecidableEq

/-- Match one exclusion pattern at position `i`, returning the regex match
end (for the paren forms, the position just after the `(`). -/
def matchPatAt (content : List Char) (i : Nat) : ExclPat → Option Nat
  | ExclPat.wordFn name =>
    if (i = 0 || !isWordChar (content.getD (i - 1) ' ')) &&
        name.isPrefixOf (content.drop i) then
      let k := skipWs content (i + name.length)
      if content.getD k ' ' = '(' then some (k + 1) else none
    else none
  | ExclPat.litFn lit =>
    if lit.isPrefixOf (content.drop i) then
      let k := skipWs content (i + lit.length)
      if content.getD k ' ' = '(' then some (k + 1) else none
    else none
  | ExclPat.kw name =>
    if (i = 0 || !isWordChar (content.getD (i - 1) ' ')) &&
        name.isPrefixOf (content.drop i) then
      let r := wsRunLen (content.drop (i + name.length))
      if 0 < r then some (i + name.length + r) else none
    else none

/-- Fueled `re.finditer` over one pattern: leftmost matches, scanning
resumes at each match end (match ends always exceed their starts). -/
def findPatMatchesF (content : List Char) (pat : ExclPat) :
    Nat → Nat → List (Nat × Nat)
  | 0, _ => []
  | fuel + 1, i =>
    if i < content.length then
      match matchPatAt content i pat with
      | some e => (i, e) :: findPatMatchesF content pat fuel e
      | none => findPatMatchesF content pat fuel (i + 1)
    else []

def findPatMatches (content : List Char) (pat : ExclPat) : List (Nat × Nat) :=
  findPatMatchesF content pat (content.length + 1) 0

/-- `PHPAnalyzer.EXCLUDED_FUNCTIONS` (php_analyzer.py:35-61). -/
def EXCLUDED_FUNCTIONS : List (List Char) :=
  ["__".toList, "trans".toList, "@lang".toList, "Lang::get".toList,
   "var_dump".toList, "dd".toList, "dump".toList, "print_r".toList,
   "regex:\\becho\\s+".toList, "regex:\\bprint\\s+".toList,
   "logger".toList, "error_log".toList,
   "Log::emergency".toList, "Log::alert".toList, "Log::critical".toList,
   "Log::error".toList, "Log::warning".toList, "Log::notice".toList,
   "Log::info".toList, "Log::debug".toList]

/-- `PHPAnalyzer.CLASS_INSTANCE_METHODS` (php_analyzer.py:64-94). -/
def CLASS_INSTANCE_METHODS : List (List Char) :=
  ["info".toList, "error".toList, "line".toList, "comment".toList,
   "warn".toList, "warning".toList, "select".toList, "where".toList,
   "whereIn".toList, "whereNotIn".toList, "whereBetween".toList,
   "whereNull".toList, "whereNotNull".toList, "orderBy".toList,
   "groupBy".toList, "having".toList, "join".toList, "leftJoin".toList,
   "rightJoin".toList, "pluck".toList, "value".toList, "raw".toList,
   "table".toList, "format".toList, "validate".toList,
   "validateWithBag".toList]

/-- `PHPAnalyzer.REGEX_FUNCTIONS` (php_analyzer.py:109-118). -/
def REGEX_FUNCTIONS : List (List Char) :=
  ["preg_match".toList, "preg_match_all".toList, "preg_replace".toList,
   "preg_replace_callback".toList, "preg_replace_callback_array".toList,
   "preg_filter".toList, "preg_grep".toList, "preg_split".toList]

/-- `PHPAnalyzer.PHP_BUILTIN_FUNCTIONS` (php_analyzer.py:121-194). -/
def PHP_BUILTIN_FUNCTIONS : List (List Char) :=
  ["function_exists".toList, "class_exists".toList, "method_exists".toList,
   "interface_exists".toList, "trait_exists".toList, "defined".toList,
   "define".toList, "extension_loaded".toList, "in_array".toList,
   "array_key_exists".toList, "array_search".toList, "array_column".toList,
   "array_filter".toList, "array_map".toList, "isset".toList,
   "empty".toList, "compact".toList, "extract".toList, "gettype".toList,
   "get_class".toList, "get_called_class".toList, "get_parent_class".toList,
   "is_a".toList, "is_subclass_of".toList, "property_exists".toList,
   "constant".toList, "call_user_func".toList, "call_user_func_array".toList,
   "header".toList, "setcookie".toList, "setrawcookie".toList,
   "session_name".toList, "session_id".toList, "session_save_path".toList,
   "ini_get".toList, "ini_set".toList, "ini_restore".toList,
   "putenv".toList, "getenv".toList, "file_exists".toList, "is_file".toList,
   "is_dir".toList, "is_readable".toList, "is_writable".toList,
   "filetype".toList, "mime_content_type".toList,
   "stream_context_create".toList, "stream_wrapper_register".toList,
   "trigger_error".toList, "user_error".toList, "error_reporting".toList,
   "date".toList, "strtotime".toList, "strftime".toList,
   "timezone_name_from_abbr".toList, "sprintf".toList, "vsprintf".toList,
   "sscanf".toList, "parse_url".toList, "http_build_query".toList]

/-- `PHPAnalyzer.LARAVEL_HELPER_FUNCTIONS` (php_analyzer.py:197-280). -/
def LARAVEL_HELPER_FUNCTIONS : List (List Char) :=
  ["app_path".toList, "base_path".toList, "config_path".toList,
   "database_path".toList, "public_path".toList, "resource_path".toList,
   "storage_path".toList, "asset".toList, "secure_asset".toList,
   "route".toList, "secure_url".toList, "url".toList, "action".toList,
   "config".toList, "env".toList, "session".toList, "old".toList,
   "request".toList, "view".toList, "response".toList, "redirect".toList,
   "back".toList, "auth".toList, "bcrypt".toList, "hash".toList,
   "cache".toList, "event".toList, "broadcast".toList, "dispatch".toList,
   "dispatch_sync".toList, "validator".toList, "class_basename".toList,
   "e".toList, "preg_replace_array".toList, "str".toList, "trans".toList,
   "trans_choice".toList, "__".toList, "data_get".toList,
   "data_set".toList, "data_fill".toList, "head".toList, "last".toList,
   "abort".toList, "abort_if".toList, "abort_unless".toList, "app".toList,
   "collect".toList, "cookie".toList, "decrypt".toList, "encrypt".toList,
   "info".toList, "logger".toList, "method_field".toList, "now".toList,
   "optional".toList, "policy".toList, "resolve".toList, "retry".toList,
   "tap".toList, "throw_if".toList, "throw_unless".toList, "today".toList,
   "trait_uses_recursive".toList, "transform".toList, "value".toList,
   "with".toList]

/-- Substring test (Python `in` on strings). -/
def containsSub (needle : List Char) : List Char → Bool
  | [] => needle.isEmpty
  | c :: rest => needle.isPrefixOf (c :: rest) || containsSub needle rest

/-- Build the matcher for one `EXCLUDED_FUNCTIONS` entry, mirroring the case
analysis of `_get_exclusion_patterns` (php_analyzer.py:314-327).  The two
`regex:`-prefixed entries are exactly `\becho\s+` and `\bprint\s+`, embedded
as keyword patterns with that matching semantics. -/
def mkExcludedPat (func : List Char) : ExclPat :=
  if func = "regex:\\becho\\s+".toList then ExclPat.kw "echo".toList
  else if func = "regex:\\bprint\\s+".toList then ExclPat.kw "print".toList
  else if containsSub "::".toList func then ExclPat.litFn func
  else if func.headD ' ' = '@' then ExclPat.litFn func
  else ExclPat.wordFn func

/-- The full ordered pattern list of `_get_exclusion_patterns`
(php_analyzer.py:312-348). -/
def exclusionPatterns : List ExclPat :=
  EXCLUDED_FUNCTIONS.map mkExcludedPat ++
  CLASS_INSTANCE_METHODS.flatMap (fun m =>
    [ExclPat.litFn ("$this->".toList ++ m), ExclPat.litFn ("->".toList ++ m),
     ExclPat.litFn ("::".toList ++ m)]) ++
  REGEX_FUNCTIONS.map ExclPat.wordFn ++
  PHP_BUILTIN_FUNCTIONS.map ExclPat.wordFn ++
  LARAVEL_HELPER_FUNCTIONS.map ExclPat.wordFn

/-- `PHPAnalyzer._identify_excluded_function_ranges`
(php_analyzer.py:765-812). -/
def identifyExcludedFunctionRanges (content : List Char) : List (Nat × Nat) :=
  exclusionPatterns.flatMap (fun pat =>
    (findPatMatches content pat).filterMap (fun m =>
      let parenPos := m.2 - 1
      if content.getD parenPos ' ' = '(' then
        match find_matching_parenthesis content parenPos with
        | some cp => if parenPos < cp then some (m.1, cp + 1) else none
        | none => none
      else none))

/-- Match the strict definition signature
`ACCESS\s+function\s+\bNAME\b\s*\(\s*\)\s*:\s*RET` at position `i`
(php_analyzer.py:844); returns the regex match end. -/
def matchFuncDefAt (content alvl fname rtype : List Char) (i : Nat) :
    Option Nat :=
  if alvl.isPrefixOf (content.drop i) then
    let a := i + alvl.length
    let r1 := wsRunLen (content.drop a)
    if 0 < r1 then
      let b := a + r1
      if "function".toList.isPrefixOf (content.drop b) then
        let c := b + 8
        let r2 := wsRunLen (content.drop c)
        if 0 < r2 then
          let d := c + r2
          if fname.isPrefixOf (content.drop d) &&
              !isWordChar (content.getD (d + fname.length) ' ') then
            let e1 := skipWs content (d + fname.length)
            if content.getD e1 ' ' = '(' then
              let e2 := skipWs content (e1 + 1)
              if content.getD e2 ' ' = ')' then
                let e3 := skipWs content (e2 + 1)
                if content.getD e3 ' ' = ':' then
                  let e4 := skipWs content (e3 + 1)
                  if rtype.isPrefixOf (content.drop e4) then
                    some (e4 + rtype.length)
                  else none
                else none
              else none
            else none
          else none
        else none
      else none
    else none
  else none

/-- Fueled `re.finditer` over the definition signature. -/
def findDefMatchesF (content alvl fname rtype : List Char) :
    Nat → Nat → List (Nat × Nat)
  | 0, _ => []
  | fuel + 1, i =>
    if i < content.length then
      match matchFuncDefAt content alvl fname rtype i with
      | some e => (i, e) :: findDefMatchesF content alvl fname rtype fuel e
      | none => findDefMatchesF content alvl fname rtype fuel (i + 1)
    else []

/-- Scan of the 100 characters after a definition signature for the body's
opening brace, stopping at a `;` (php_analyzer.py:849-860). -/
def braceScan : List Char → Nat → Option Nat
  | [], _ => none
  | c :: rest, k =>
    if c = '\x7b' then some k
    else if c = ';' then none
    else braceScan rest (k + 1)

def findBodyStart (content : List Char) (start : Nat) : Option Nat :=
  (braceScan ((content.drop start).take 100) 0).map (· + start)

/-- `PHPAnalyzer.EXCLUDED_FUNCTION_DEFINITIONS` (php_analyzer.py:103-106). -/
def EXCLUDED_FUNCTION_DEFINITIONS :
    List (List Char × List Char × List Char) :=
  [("protected".toList, "casts".toList, "array".toList),
   ("public".toList, "rules".toList, "array".toList)]

/-- `PHPAnalyzer._identify_excluded_function_definitions`
(php_analyzer.py:814-866). -/
def identifyExcludedFunctionDefinitions (content : List Char) :
    List (Nat × Nat) :=
  EXCLUDED_FUNCTION_DEFINITIONS.flatMap (fun t =>
    (findDefMatchesF content t.1 t.2.1 t.2.2 (content.length + 1) 0).filterMap
      (fun m =>
        match findBodyStart content m.2 with
        | some b =>
          match find_matching_brace content b with
          | some be => if b < be then some (m.1, be + 1) else none
          | none => none
        | none => none))

/-- `PHPAnalyzer._is_in_excluded_function_range` (php_analyzer.py:1026-1043):
the `-1` sentinel lies below every range. -/
def isInExcludedFunctionRange (ranges : List (Nat × Nat)) (position : Int) :
    Bool :=
  ranges.any (fun r => (r.1 : Int) ≤ position && position < (r.2 : Int))

/-- `PHPAnalyzer._is_excluded_by_function_pattern` (php_analyzer.py:698-714):
`re.search` success is a nonempty `finditer` result. -/
def isExcludedByFunctionPattern (beforeString : List Char) : Bool :=
  exclusionPatterns.any (fun pat => !(findPatMatches beforeString pat).isEmpty)

/-- `PHPAnalyzer._is_array_key` (php_analyzer.py:716-763).  `position` is
non-negative at the call site (checked against `-1` by the caller). -/
def isArrayKey (beforeString afterString content : List Char)
    (position : Int) (textLength : Nat) : Bool :=
  let beforeStripped := pyRStrip beforeString
  if beforeStripped.getLast? = some '[' && "]".toList.isPrefixOf afterString then
    true
  else if "=>".toList.isPrefixOf afterString then true
  else
    let stringEnd := position.toNat + textLength
    let remaining := (content.drop stringEnd).take 100
    let rs := pyLStrip remaining
    let rs2 :=
      if rs.headD ' ' = '\'' || rs.headD ' ' = '"' then pyLStrip (rs.drop 1)
      else rs
    "=>".toList.isPrefixOf rs2

/-- `PHPAnalyzer.should_include_string` (php_analyzer.py:637-696); the
validator passed at every call site is `should_extract_string`. -/
def should_include_string (minBytes : Nat) (text content : List Char)
    (line column : Nat) : Bool :=
  if !should_extract_string text minBytes then false
  else
    let lines := splitNL content
    if line < 1 || lines.length < line then false
    else
      let currentLine := lines.getD (line - 1) []
      let beforeString :=
        if 0 < column then currentLine.take (column - 1) else []
      let afterWithQuote := currentLine.drop (column + text.length)
      let afterRaw :=
        if afterWithQuote.headD ' ' = '\'' || afterWithQuote.headD ' ' = '"' then
          afterWithQuote.drop 1
        else afterWithQuote
      let afterString := pyLStrip afterRaw
      if isExcludedByFunctionPattern beforeString then false
      else
        let position := get_position_from_line_column content line column
        if position = -1 then true
        else if isArrayKey beforeString afterString content position
            text.length then false
        else true

/-- `PHPAnalyzer.extract_and_validate_strings` (php_analyzer.py:350-392). -/
def extract_and_validate_strings (minBytes : Nat) (content : List Char) :
    List (List Char × Nat × Nat × Nat) :=
  let excludedRanges :=
    identifyExcludedFunctionRanges content ++
      identifyExcludedFunctionDefinitions content
  (extract_string_literals content).filterMap (fun lit =>
    let strippedText := pyStrip lit.1
    if strippedText.isEmpty then none
    else
      let position := get_position_from_line_column content lit.2.1 lit.2.2.1
      if isInExcludedFunctionRange excludedRanges position then none
      else if should_include_string minBytes strippedText content
          lit.2.1 lit.2.2.1 then
        let leadingWhitespace := lit.1.length - (pyLStrip lit.1).length
        some (strippedText, lit.2.1, lit.2.2.1 + leadingWhitespace,
          strippedText.length)
      else none)

example :
    extract_and_validate_strings 4 "<?php $x = 'Hello World'; ?>".toList =
      [("Hello World".toList, 1, 12, 11)] := by decide
example :
    extract_and_validate_strings 4 "<?php __('auth.failed'); ?>".toList =
      [] := by decide
example :
    extract_and_validate_strings 4 "$a['user_name'] = 'Welcome, user!';".toList =
      [("Welcome, user!".toList, 1, 19, 14)] := by decide

/-!
Blade template processor (`blade_processor.py`).  The HTML parse itself is
BeautifulSoup (an external library); its raw text/attribute/script fragments
enter the model as a parameter, and everything around them — comment
removal, excluded-range construction, the filtering in `process`, and the
PHP-block extraction path — is embedded from the source.
-/

/-- One `re.sub(open .. close, "", s)` pass with non-greedy DOTALL matching
(`_remove_comments`, blade_processor.py:192-208): repeatedly drop the span
from the leftmost opener to the earliest closer after it. -/
def removeDelimitedF (op cl : List Char) : Nat → List Char → List Char
  | 0, s => s
  | fuel + 1, s =>
    match pyFind s op 0 with
    | none => s
    | some i =>
      match pyFind s cl (i + op.length) with
      | none => s
      | some j => s.take i ++ removeDelimitedF op cl fuel (s.drop (j + cl.length))

/-- `BladeProcessor._remove_comments`: strip `{{-- --}}` then `<!-- -->`. -/
def removeComments (content : List Char) : List Char :=
  let step1 :=
    removeDelimitedF "\x7b\x7b--".toList "--\x7d\x7d".toList
      (content.length + 1) content
  removeDelimitedF "<!--".toList "-->".toList (step1.length + 1) step1

/-- Case-insensitive ASCII character comparison (`re.IGNORECASE`). -/
def charCI (a b : Char) : Bool := a.toLower = b.toLower

def isPrefixOfCI : List Char → List Char → Bool
  | [], _ => true
  | _ :: _, [] => false
  | a :: at2, b :: bt2 => charCI a b && isPrefixOfCI at2 bt2

def findCIFrom (needle : List Char) : List Char → Option Nat
  | [] => none
  | c :: rest =>
    if isPrefixOfCI needle (c :: rest) then some 0
    else (findCIFrom needle rest).map (· + 1)

/-- Match `<style[^>]*>.*?</style>` (IGNORECASE, DOTALL) at position `i`
(`_identify_excluded_ranges`, blade_processor.py:233-236); returns the match
end. -/
def matchStyleAt (content : List Char) (i : Nat) : Option Nat :=
  if isPrefixOfCI "<style".toList (content.drop i) then
    let j := i + 6 + ((content.drop (i + 6)).takeWhile (fun c => c != '>')).length
    if content.getD j ' ' = '>' then
      match findCIFrom "</style>".toList (content.drop (j + 1)) with
      | some k => some (j + 1 + k + 8)
      | none => none
    else none
  else none

def styleRangesF (content : List Char) : Nat → Nat → List (Nat × Nat)
  | 0, _ => []
  | fuel + 1, i =>
    if i < content.length then
      match matchStyleAt content i with
      | some e => (i, e) :: styleRangesF content fuel e
      | none => styleRangesF content fuel (i + 1)
    else []

/-- The `<style>` element ranges of the content. -/
def styleRanges (content : List Char) : List (Nat × Nat) :=
  styleRangesF content (content.length + 1) 0

/-- Shapes of the Blade exclusion regexes
(`BLADE_TRANSLATION_PATTERNS` / `BLADE_VARIABLE_PATTERNS`,
blade_processor.py:19-30): a plain literal, or literal `\s*` literal. -/
inductive BladePat where
  | lit (l : List Char)
  | litWsLit (pre mid : List Char)
deriving DecidableEq

def matchBladePatAt (content : List Char) (i : Nat) : BladePat → Option Nat
  | BladePat.lit l =>
    if l.isPrefixOf (content.drop i) then some (i + l.length) else none
  | BladePat.litWsLit pre mid =>
    if pre.isPrefixOf (content.drop i) then
      let k := skipWs content (i + pre.length)
      if mid.isPrefixOf (content.drop k) then some (k + mid.length) else none
    else none

def findBladeMatchesF (content : List Char) (pat : BladePat) :
    Nat → Nat → List (Nat × Nat)
  | 0, _ => []
  | fuel + 1, i =>
    if i < content.length then
      match matchBladePatAt content i pat with
      | some e => (i, e) :: findBladeMatchesF content pat fuel e
      | none => findBladeMatchesF content pat fuel (i + 1)
    else []

def findBladeMatches (content : List Char) (pat : BladePat) :
    List (Nat × Nat) :=
  findBladeMatchesF content pat (content.length + 1) 0

/-- `BladeProcessor.BLADE_TRANSLATION_PATTERNS` (blade_processor.py:19-25). -/
def BLADE_TRANSLATION_PATTERNS : List BladePat :=
  [BladePat.litWsLit "\x7b\x7b".toList "__(".toList,
   BladePat.litWsLit "\x7b\x7b".toList "trans(".toList,
   BladePat.litWsLit "\x7b!!".toList "__(".toList,
   BladePat.litWsLit "\x7b!!".toList "trans(".toList,
   BladePat.lit "@lang(".toList]

/-- `BladeProcessor.BLADE_VARIABLE_PATTERNS` (blade_processor.py:27-30). -/
def BLADE_VARIABLE_PATTERNS : List BladePat :=
  [BladePat.litWsLit "\x7b\x7b".toList "$".toList,
   BladePat.litWsLit "\x7b!!".toList "$".toList]

/-- Match `@\w+` at position `i` (greedy word run); returns the match end. -/
def matchDirectiveAt (content : List Char) (i : Nat) : Option Nat :=
  if content.getD i ' ' = '@' then
    let r := ((content.drop (i + 1)).takeWhile isWordChar).length
    if 0 < r then some (i + 1 + r) else none
  else none

/-- Match `@\w+\s*\(` at position `i`; returns the position after the `(`. -/
def matchDirectiveArgsAt (content : List Char) (i : Nat) : Option Nat :=
  match matchDirectiveAt content i with
  | some e =>
    let k := skipWs content e
    if content.getD k ' ' = '(' then some (k + 1) else none
  | none => none

def findDirectiveMatchesF (content : List Char)
    (m : List Char → Nat → Option Nat) : Nat → Nat → List (Nat × Nat)
  | 0, _ => []
  | fuel + 1, i =>
    if i < content.length then
      match m content i with
      | some e => (i, e) :: findDirectiveMatchesF content m fuel e
      | none => findDirectiveMatchesF content m fuel (i + 1)
    else []

/-- Scan to the first `(` or `{` (`_find_closing_bracket`,
blade_processor.py:283-285). -/
def scanToParenOrBrace (content : List Char) : Nat → Nat → Nat
  | 0, i => i
  | fuel + 1, i =>
    if i < content.length then
      if content.getD i ' ' = '(' || content.getD i ' ' = '\x7b' then i
      else scanToParenOrBrace content fuel (i + 1)
    else i

/-- Parenthesis depth loop without string awareness
(`_find_closing_bracket`, blade_processor.py:292-299). -/
def parenDepthLoop (content : List Char) : Nat → Nat → Nat → Nat
  | 0, i, _ => i
  | fuel + 1, i, depth =>
    if i < content.length && 0 < depth then
      let d2 :=
        if content.getD i ' ' = '(' then depth + 1
        else if content.getD i ' ' = ')' then depth - 1
        else depth
      parenDepthLoop content fuel (i + 1) d2
    else i

/-- Scan to `}}` or `!!}` (`_find_closing_bracket`,
blade_processor.py:302-307). -/
def scanToCloseMarker (content : List Char) : Nat → Nat → Nat
  | 0, i => i
  | fuel + 1, i =>
    if i < content.length then
      if "\x7d\x7d".toList.isPrefixOf (content.drop i) then i + 2
      else if "!!\x7d".toList.isPrefixOf (content.drop i) then i + 3
      else scanToCloseMarker content fuel (i + 1)
    else i

/-- `BladeProcessor._find_closing_bracket` (blade_processor.py:280-307). -/
def find_closing_bracket (content : List Char) (start : Nat) : Nat :=
  let i := scanToParenOrBrace content (content.length + 1) start
  if content.length ≤ i then start
  else
    let i2 :=
      if content.getD i ' ' = '(' then
        parenDepthLoop content (content.length + 1) (i + 1) 1
      else i
    scanToCloseMarker content (content.length + 1) i2

/-- Scan to the first `(` (`_find_closing_parenthesis`,
blade_processor.py:323-325). -/
def scanToParen (content : List Char) : Nat → Nat → Nat
  | 0, i => i
  | fuel + 1, i =>
    if i < content.length then
      if content.getD i ' ' = '(' then i else scanToParen content fuel (i + 1)
    else i

/-- Depth loop of `_find_closing_parenthesis` (blade_processor.py:330-364):
string-aware, no comment handling; returns the closing-paren position. -/
def findClosingParenF (content : List Char) : Nat → Nat → Nat → Option Nat
  | 0, _, _ => none
  | fuel + 1, i, depth =>
    if i < content.length && 0 < depth then
      if content.getD i ' ' = '"' || content.getD i ' ' = '\'' then
        match skipStringF (content.getD i ' ') content (content.length + 1) (i + 1) with
        | some j => findClosingParenF content fuel j depth
        | none => none
      else if content.getD i ' ' = '(' then
        findClosingParenF content fuel (i + 1) (depth + 1)
      else if content.getD i ' ' = ')' then
        findClosingParenF content fuel (i + 1) (depth - 1)
      else findClosingParenF content fuel (i + 1) depth
    else if depth = 0 then some (i - 1) else none

/-- `BladeProcessor._find_closing_parenthesis` (blade_processor.py:309-364). -/
def find_closing_parenthesis (content : List Char) (start : Nat) : Option Nat :=
  let i := scanToParen content (content.length + 1) start
  if content.length ≤ i then none
  else findClosingParenF content (content.length + 1) (i + 1) 1

/-- The directive loop of `_identify_excluded_ranges`
(blade_processor.py:264-274): add each `@\w+` match unless its start already
lies in a recorded range (including ranges added by this very loop). -/
def directivesFoldGo (acc : List (Nat × Nat)) :
    List (Nat × Nat) → List (Nat × Nat)
  | [] => []
  | m :: rest =>
    if acc.any (fun r => r.1 ≤ m.1 && m.1 < r.2) then directivesFoldGo acc rest
    else m :: directivesFoldGo (acc ++ [m]) rest

/-- `BladeProcessor._identify_excluded_ranges` (blade_processor.py:210-278);
the Python set of ranges is modelled as a list used for membership tests,
appended in the source's insertion order: style tags, translation calls,
variable expansions, directives with arguments, bare directives, PHP block
ranges. -/
def identifyExcludedRanges (phpRanges : List (Nat × Nat))
    (content : List Char) : List (Nat × Nat) :=
  let styles := styleRanges content
  let transR := BLADE_TRANSLATION_PATTERNS.flatMap (fun pat =>
    (findBladeMatches content pat).filterMap (fun m =>
      let e := find_closing_bracket content m.1
      if m.1 < e then some (m.1, e) else none))
  let varR := BLADE_VARIABLE_PATTERNS.flatMap (fun pat =>
    (findBladeMatches content pat).filterMap (fun m =>
      let e := find_closing_bracket content m.1
      if m.1 < e then some (m.1, e) else none))
  let dirArgR :=
    (findDirectiveMatchesF content matchDirectiveArgsAt
      (content.length + 1) 0).filterMap (fun m =>
        match find_closing_parenthesis content (m.2 - 1) with
        | some e => if m.1 < e then some (m.1, e + 1) else none
        | none => none)
  let base := styles ++ (transR ++ varR ++ dirArgR)
  let dirR := directivesFoldGo base
    (findDirectiveMatchesF content matchDirectiveAt (content.length + 1) 0)
  styles ++ (transR ++ varR ++ dirArgR ++ dirR ++ phpRanges)

/-- Same-line closer search for the `..*?` alternatives of
`BLADE_SYNTAX_PATTERN`: the closer must appear before any newline. -/
def closeBeforeNL (cl : List Char) : List Char → Bool
  | [] => false
  | c :: rest => cl.isPrefixOf (c :: rest) || (c != '\n' && closeBeforeNL cl rest)

/-- Search for `OPEN .*? CLOSE` with `.` not crossing newlines. -/
def containsPairNoNL (op cl : List Char) : List Char → Bool
  | [] => false
  | c :: rest =>
    (op.isPrefixOf (c :: rest) && closeBeforeNL cl ((c :: rest).drop op.length)) ||
      containsPairNoNL op cl rest

/-- Search for `@\w+`. -/
def containsDirective : List Char → Bool
  | [] => false
  | c :: rest => (c = '@' && isWordChar (rest.headD ' ')) || containsDirective rest

/-- `re.search` success of `BLADE_SYNTAX_PATTERN` (blade_processor.py:41-47). -/
def bladeSyntaxSearch (text : List Char) : Bool :=
  containsDirective text ||
  containsPairNoNL "\x7b\x7b".toList "\x7d\x7d".toList text ||
  containsPairNoNL "\x7b!!".toList "!!\x7d".toList text ||
  containsSub "<?php".toList text ||
  containsSub "?>".toList text

def bladePatSearch (text : List Char) (pat : BladePat) : Bool :=
  !(findBladeMatches text pat).isEmpty

/-- `BladeProcessor._should_exclude_text` (blade_processor.py:159-190). -/
def shouldExcludeText (minBytes : Nat) (text : List Char) : Bool :=
  if bladeSyntaxSearch text then true
  else if BLADE_TRANSLATION_PATTERNS.any (bladePatSearch text) then true
  else if BLADE_VARIABLE_PATTERNS.any (bladePatSearch text) then true
  else !should_extract_string text minBytes

/-- `BladeProcessor._is_in_excluded_range` (blade_processor.py:366-371). -/
def isInExcludedRange (ranges : List (Nat × Nat)) (pos : Int) : Bool :=
  ranges.any (fun r => (r.1 : Int) ≤ pos && pos < (r.2 : Int))

/-- Python slice `content[:p]` for a possibly negative index. -/
def pyTakeInt (s : List Char) (p : Int) : List Char :=
  if p < 0 then s.take ((s.length : Int) + p).toNat else s.take p.toNat

/-- `get_line_column` over an `int` position, as used by
`_extract_from_php_blocks` where the position arithmetic is on Python ints. -/
def get_line_column_int (content : List Char) (pos : Int) : Nat × Nat :=
  let linesBefore := splitNL (pyTakeInt content pos)
  (linesBefore.length, (linesBefore.getLastD []).length)

/-- `BladeProcessor._extract_from_php_blocks` (blade_processor.py:131-157). -/
def extractFromPhpBlocks (minBytes : Nat) (content : List Char)
    (phpRanges : List (Nat × Nat)) : List (List Char × Nat × Nat × Nat) :=
  phpRanges.flatMap (fun r =>
    let phpContent := (content.drop r.1).take (r.2 - r.1)
    (extract_and_validate_strings minBytes phpContent).map (fun v =>
      let relativePos := get_position_from_line_column phpContent v.2.1 v.2.2.1
      let absolutePos := (r.1 : Int) + relativePos
      let lc := get_line_column_int content absolutePos
      (v.1, lc.1, lc.2, v.2.2.2)))

/-- `ExtractedString` (extracted_string.py). -/
structure ExtractedString where
  text : List Char
  line : Nat
  column : Nat
  length : Nat
deriving DecidableEq

/-- The HTML-fragment filter of `BladeProcessor.process` (Step 6,
blade_processor.py:105-124), applied to the raw fragments the
BeautifulSoup-backed `_extract_from_html` yields. -/
def processHtmlFiltered (minBytes : Nat) (content : List Char)
    (htmlResults : List (List Char × Nat × Nat × Nat)) :
    List ExtractedString :=
  let phpRanges := extract_php_ranges content true
  let cleaned := removeComments content
  let excluded := identifyExcludedRanges phpRanges cleaned
  htmlResults.filterMap (fun hr =>
    let adj := adjust_text_position hr.1 hr.2.2.1
    if adj.1.isEmpty then none
    else if shouldExcludeText minBytes adj.1 then none
    else
      let pos := get_position_from_line_column content hr.2.1 adj.2.1
      if isInExcludedRange excluded pos then none
      else some (ExtractedString.mk adj.1 hr.2.1 adj.2.1 adj.2.2))

/-- `BladeProcessor.process` (blade_processor.py:64-129).  The
BeautifulSoup-backed HTML extraction is external, so its raw
`(text, line, column, length)` fragments are a parameter; the filtered HTML
results are combined with the PHP-block extraction results. -/
def process (minBytes : Nat) (content : List Char)
    (htmlResults : List (List Char × Nat × Nat × Nat)) :
    List ExtractedString :=
  processHtmlFiltered minBytes content htmlResults ++
    (extractFromPhpBlocks minBytes content (extract_php_ranges content true)).map
      (fun v => ExtractedString.mk v.1 v.2.1 v.2.2.1 v.2.2.2)

example :
    removeComments "a<!-- x -->b\x7b\x7b-- y --\x7d\x7db".toList =
      "abb".toList := by decide
example :
    styleRanges "<p>x</p><style>p \x7b color: red \x7d</style>x".toList =
      [(8, 39)] := by decide

/-- A Blade content with a PHP block inside a `<style>` element. -/
def styleCounterexampleContent : List Char :=
  "<style><?php $x = 'Hello World'; ?></style>".toList

/-- Claim C3 as stated is false: processing `styleCounterexampleContent`
yields the PHP-block fragment `"Hello World"` whose resolved absolute
position (19) lies inside the style-tag range `(0, 43)`.  PHP-block results
are appended to the output of `process` without passing the excluded-range
filter, which is applied to HTML-path fragments only. -/
theorem C3_style_exclusion_counterexample :
    process 4 styleCounterexampleContent [] =
      [ExtractedString.mk "Hello World".toList 1 19 11] ∧
    styleRanges (removeComments styleCounterexampleContent) = [(0, 43)] ∧
    get_position_from_line_column styleCounterexampleContent 1 19 = 19 ∧
    isInExcludedRange (styleRanges (removeComments styleCounterexampleContent))
      (get_position_from_line_column styleCounterexampleContent 1 19) = true :=
  ⟨by decide, by decide, by decide, by decide⟩

theorem isInExcludedRange_append (a b : List (Nat × Nat)) (p : Int) :
    isInExcludedRange (a ++ b) p =
      (isInExcludedRange a p || isInExcludedRange b p) := by
  simp [isInExcludedRange, List.any_append]

/-- Claim C3 amended: every fragment produced by the HTML extraction path of
`process` is filtered against the excluded ranges, which contain every
style-tag range of the cleaned content; hence no HTML-path fragment has its
resolved position inside a style-tag range.  Fragments extracted from PHP
blocks bypass this filter (see the counterexample). -/
theorem C3_html_fragments_not_in_style (minBytes : Nat) (content : List Char)
    (htmlResults : List (List Char × Nat × Nat × Nat)) :
    ∀ e ∈ processHtmlFiltered minBytes content htmlResults,
      isInExcludedRange (styleRanges (removeComments content))
        (get_position_from_line_column content e.line e.column) = false := by
  intro e he
  simp only [processHtmlFiltered, List.mem_filterMap] at he
  obtain ⟨hr, hmem, hf⟩ := he
  split at hf
  · simp at hf
  · split at hf
    · simp at hf
    · split at hf
      · simp at hf
      · rename_i hexcl
        obtain rfl : ExtractedString.mk (adjust_text_position hr.1 hr.2.2.1).1
            hr.2.1 (adjust_text_position hr.1 hr.2.2.1).2.1
            (adjust_text_position hr.1 hr.2.2.1).2.2 = e := by
          simpa using hf
        show isInExcludedRange (styleRanges (removeComments content))
          (get_position_from_line_column content hr.2.1
            (adjust_text_position hr.1 hr.2.2.1).2.1) = false
        have hex : isInExcludedRange
            (identifyExcludedRanges (extract_php_ranges content true)
              (removeComments content))
            (get_position_from_line_column content hr.2.1
              (adjust_text_position hr.1 hr.2.2.1).2.1) = false := by
          simpa using hexcl
        rw [identifyExcludedRanges, isInExcludedRange_append] at hex
        cases h1 : isInExcludedRange (styleRanges (removeComments content))
            (get_position_from_line_column content hr.2.1
              (adjust_text_position hr.1 hr.2.2.1).2.1) with
        | false => rfl
        | true => rw [h1] at hex; simp at hex

/-- Witness for `C3_html_fragments_not_in_style`: a concrete HTML fragment
that survives the filter, with its position outside every style range. -/
theorem C3_html_fragments_not_in_style_witness :
    (ExtractedString.mk "Hello there".toList 1 3 11 ∈
      processHtmlFiltered 4 "<p>Hello there</p>".toList
        [("Hello there".toList, 1, 3, 11)]) ∧
    isInExcludedRange (styleRanges (removeComments "<p>Hello there</p>".toList))
      (get_position_from_line_column "<p>Hello there</p>".toList 1 3) = false :=
  ⟨by decide,
   by
    have := C3_html_fragments_not_in_style 4 "<p>Hello there</p>".toList
      [("Hello there".toList, 1, 3, 11)]
      (ExtractedString.mk "Hello there".toList 1 3 11) (by decide)
    simpa using this⟩

end LaravelI18n
